import Mathlib

/-!
Verification of the core logic of the roadmap-generator service
(`src/app.py`), namely the two pure functions of
`FlexibleRoadmapGenerator`:

* `_parse_time_input` (app.py lines 717-759): converts a free-form
  duration string into a number of study hours;
* `_parse_json_safely` (app.py lines 777-806): recovers a JSON object
  from raw LLM output text, falling back to a caller-supplied object.

The Python code is shallowly embedded over `List Char`.  Python's
`str.lower`/`str.strip` and the regular expressions are modelled over
the ASCII character classes they use (`\d` as `0`-`9`, `[a-z]`,
whitespace as Python's ASCII whitespace).  Python floats are modelled
bit-exactly as IEEE-754 binary64 values (the inductive `PyFloat`
below): `float(...)` of a decimal literal is the correctly rounded
conversion (round to nearest, ties to even, overflow to infinity, as
CPython's `strtod` performs it), `value * multiplier` with an int
multiplier is the correctly rounded product (the table multipliers
convert to double exactly), and `int(...)` truncates toward zero,
raising `OverflowError` on an infinity — modelled as `none`.
JSON documents are modelled by the inductive `Json` below, with
numbers as exact integers or binary64 floats, and `json.loads`
embedded as a recursive-descent parser following Python's JSON
grammar (`NaN`/`Infinity`/`-Infinity` included).
-/

set_option maxRecDepth 40000

/-! ### Character classes (ASCII model of Python's `\d`, `[a-z]`, `\s`) -/

def isDigitCh (c : Char) : Bool := 48 ≤ c.toNat && c.toNat ≤ 57

def isLowerAZ (c : Char) : Bool := 97 ≤ c.toNat && c.toNat ≤ 122

/-- Python whitespace (`\s`, `str.strip`): space, tab, LF, CR, VT, FF. -/
def isPySpace (c : Char) : Bool :=
  c.toNat = 32 || c.toNat = 9 || c.toNat = 10 || c.toNat = 13 ||
  c.toNat = 11 || c.toNat = 12

/-- `str.lower` on one character (ASCII model): map `A`-`Z` to `a`-`z`. -/
def pyLowerChar (c : Char) : Char :=
  if 65 ≤ c.toNat && c.toNat ≤ 90 then Char.ofNat (c.toNat + 32) else c

def pyLower (l : List Char) : List Char := l.map pyLowerChar

/-- `str.strip()`: drop leading and trailing whitespace. -/
def pyStrip (l : List Char) : List Char :=
  ((l.dropWhile isPySpace).reverse.dropWhile isPySpace).reverse

def digitVal (c : Char) : Nat := c.toNat - 48

/-- Numeric value of a digit string (most significant digit first). -/
def natOfDigits (l : List Char) : Nat :=
  l.foldl (fun acc c => 10 * acc + digitVal c) 0

def digitChar (n : Nat) : Char := Char.ofNat (48 + n)

def natToCharsAux : Nat → Nat → List Char
  | 0, _ => []
  | fuel + 1, n =>
    if n < 10 then [digitChar n]
    else natToCharsAux fuel (n / 10) ++ [digitChar (n % 10)]

/-- Decimal digit string of a natural number (no leading zeros). -/
def natToChars (n : Nat) : List Char := natToCharsAux (n + 1) n

/-! ### IEEE-754 binary64 model of Python floats

A Python float is a sign, a 53-bit significand `m` and a power of two,
an infinity, or `NaN`.  The canonical finite form used here: value
`(-1)^sign * m * 2^e` with `m = 0 ∧ e = 0` (signed zero), or
`0 < m < 2^52 ∧ e = -1074` (subnormal), or `2^52 ≤ m < 2^53 ∧
-1074 ≤ e ≤ 971` (normal; the largest finite double is
`(2^53 - 1) * 2^971`).  `float()` of a decimal string and float
multiplication are correctly rounded (round to nearest, ties to even),
exactly as CPython computes them. -/

inductive PyFloat where
  | finite (sign : Bool) (m : Nat) (e : Int)
  | inf (sign : Bool)
  | nan
deriving DecidableEq, Repr

/-- Is `num / den ≥ 2 ^ s` (for `den > 0`)? -/
def ratGePow2 (num den : Nat) (s : Int) : Bool :=
  if 0 ≤ s then den * 2 ^ s.toNat ≤ num else den ≤ num * 2 ^ (-s).toNat

/-- Fuel-driven `⌊log₂ n⌋` (`Nat.log2` itself is defined by
well-founded recursion, which kernel reduction cannot evaluate). -/
def natLog2Aux : Nat → Nat → Nat
  | 0, _ => 0
  | fuel + 1, n => if n < 2 then 0 else natLog2Aux fuel (n / 2) + 1

def natLog2 (n : Nat) : Nat := natLog2Aux n n

/-- `⌊log₂ (num / den)⌋` for `num, den > 0`. -/
def ratLog2 (num den : Nat) : Int :=
  let g : Int := (natLog2 num : Int) - (natLog2 den : Int)
  if ratGePow2 num den g then g else g - 1

/-- `⌊a / b⌋` rounded to nearest, ties to even (`b > 0`). -/
def divRoundEven (a b : Nat) : Nat :=
  let q := a / b
  let r := a % b
  if 2 * r < b then q
  else if b < 2 * r then q + 1
  else if q % 2 = 0 then q else q + 1

/-- Round the positive rational `num / den` to the nearest binary64
value (ties to even), overflowing to infinity: scale into the binade
found by `ratLog2`, round the significand, and renormalise when the
rounding carries into the next power of two. -/
def roundPosToFloat (num den : Nat) : PyFloat :=
  let s := ratLog2 num den
  let e : Int := max (s - 52) (-1074)
  let m :=
    if 0 ≤ e then divRoundEven num (den * 2 ^ e.toNat)
    else divRoundEven (num * 2 ^ (-e).toNat) den
  if m = 0 then .finite false 0 0
  else if m = 2 ^ 53 then
    if 971 < e + 1 then .inf false else .finite false (2 ^ 52) (e + 1)
  else if 971 < e then .inf false
  else .finite false m e

def pyFloatSign (sign : Bool) : PyFloat → PyFloat
  | .finite _ m e => .finite sign m e
  | .inf _ => .inf sign
  | .nan => .nan

/-- `float()` of the decimal `±digits × 10 ^ dexp`: correctly rounded
decimal-to-double conversion.  The two guards are exact short cuts
(`digits ≠ 0` and `dexp ≥ 400` forces a value above the largest
double; a value below `10 ^ (-400)` is under half the smallest
subnormal `2 ^ (-1074)` and rounds to zero) keeping the powers of ten
computable. -/
def floatOfDecExp (sign : Bool) (digits : List Char) (dexp : Int) : PyFloat :=
  let n := natOfDigits digits
  if n = 0 then .finite sign 0 0
  else if 400 ≤ dexp then .inf sign
  else if dexp + (digits.length : Int) ≤ -400 then .finite sign 0 0
  else
    pyFloatSign sign
      (if 0 ≤ dexp then roundPosToFloat (n * 10 ^ dexp.toNat) 1
       else roundPosToFloat n (10 ^ (-dexp).toNat))

/-- `float(<intPart>.<fracPart>)` for the digit strings matched by the
duration regex. -/
def floatOfDec (ip fp : List Char) : PyFloat :=
  floatOfDecExp false (ip ++ fp) (-(fp.length : Int))

/-- `value * multiplier` with an int multiplier: the multiplier
converts to double exactly (all table multipliers are below `2^53`),
and the product of the exact rationals is rounded once, which is the
IEEE-754 product. -/
def floatMulNat (f : PyFloat) (k : Nat) : PyFloat :=
  match f with
  | .finite sign m e =>
    if m = 0 || k = 0 then .finite sign 0 0
    else
      pyFloatSign sign
        (if 0 ≤ e then roundPosToFloat (m * k * 2 ^ e.toNat) 1
         else roundPosToFloat (m * k) (2 ^ (-e).toNat))
  | .inf sign => if k = 0 then .nan else .inf sign
  | .nan => .nan

/-- `int(x)` of a float: truncation toward zero; an infinity raises
`OverflowError` and `NaN` raises `ValueError`, both uncaught in
`_parse_time_input` and modelled as `none`. -/
def intOfFloat : PyFloat → Option Int
  | .finite sign m e =>
    let q : Nat := if 0 ≤ e then m * 2 ^ e.toNat else m / 2 ^ (-e).toNat
    some (if sign then -(q : Int) else (q : Int))
  | .inf _ => none
  | .nan => none

/-! ### `_parse_time_input` (app.py 717-759)

```
time_str = time_str.lower().strip()
match = re.search(r'(\d+\.?\d*)\s*([a-z]*)', time_str)
if not match:
    numbers = re.findall(r'\d+', time_str)
    if numbers:
        return int(numbers[0])
    return 100
value = float(match.group(1))
unit = match.group(2) if match.group(2) else 'hours'
conversions = { ... }
for key, multiplier in conversions.items():
    if unit.startswith(key) or key.startswith(unit):
        total_hours = int(value * multiplier)
        return min(max(total_hours, 10), 2000)
return int(value)
```

The pattern `(\d+\.?\d*)\s*([a-z]*)` matches (greedily, and since the
tail of the pattern can match the empty string, without backtracking)
at the first position holding a digit: a maximal digit run, an
optional dot followed by a maximal digit run, optional whitespace and
a maximal run of lowercase letters. -/

structure TimeMatch where
  intPart : List Char
  fracPart : List Char
  unit : List Char
deriving DecidableEq, Repr

/-- Fractional digits matched by `\.?\d*` from the remainder after the
integer digits. -/
def fracOf : List Char → List Char
  | c :: r => if c = '.' then r.takeWhile isDigitCh else []
  | [] => []

/-- Remainder after `\d+\.?\d*`. -/
def afterFrac : List Char → List Char
  | c :: r => if c = '.' then r.dropWhile isDigitCh else c :: r
  | [] => []

/-- The unit token matched by `\s*([a-z]*)`. -/
def unitOf (r1 : List Char) : List Char :=
  ((afterFrac r1).dropWhile isPySpace).takeWhile isLowerAZ

/-- The match of `(\d+\.?\d*)\s*([a-z]*)` at a position whose first
character is a digit. -/
def matchAt (cs : List Char) : TimeMatch :=
  ⟨cs.takeWhile isDigitCh, fracOf (cs.dropWhile isDigitCh), unitOf (cs.dropWhile isDigitCh)⟩

/-- `re.search(r'(\d+\.?\d*)\s*([a-z]*)', cs)`: the pattern requires at
least one digit, so the search succeeds exactly at the first digit. -/
def searchNum : List Char → Option TimeMatch
  | [] => none
  | c :: t => if isDigitCh c then some (matchAt (c :: t)) else searchNum t

/-- `re.findall(r'\d+', cs)` followed by taking the first element:
the first maximal digit run, if any digit exists. -/
def findallFirst : List Char → Option Nat
  | [] => none
  | c :: t =>
    if isDigitCh c then some (natOfDigits ((c :: t).takeWhile isDigitCh))
    else findallFirst t

def hoursToken : List Char := "hours".toList

/-- The `conversions` dict of app.py 734-749, in its insertion
(= iteration) order. -/
def conversions : List (List Char × Nat) :=
  [ ("hour".toList, 1), ("hours".toList, 1), ("hr".toList, 1), ("hrs".toList, 1), ("h".toList, 1),
    ("day".toList, 8), ("days".toList, 8), ("d".toList, 8),
    ("week".toList, 40), ("weeks".toList, 40), ("wk".toList, 40), ("w".toList, 40),
    ("month".toList, 160), ("months".toList, 160), ("mo".toList, 160), ("m".toList, 160),
    ("year".toList, 1920), ("years".toList, 1920), ("yr".toList, 1920), ("y".toList, 1920) ]

/-- `unit = match.group(2) if match.group(2) else 'hours'`. -/
def unitOrDefault (m : TimeMatch) : List Char :=
  if m.unit.isEmpty then hoursToken else m.unit

/-- The `for key, multiplier in conversions.items()` loop with the
bidirectional test `unit.startswith(key) or key.startswith(unit)`,
returning the first multiplier whose key matches. -/
def findConversion : List (List Char × Nat) → List Char → Option Nat
  | [], _ => none
  | (k, mult) :: rest, unit =>
    if k.isPrefixOf unit || unit.isPrefixOf k then some mult
    else findConversion rest unit

/-- The spec's arithmetic, for the refinement comparison only: exact
truncation toward zero of the decimal product `intPart.fracPart ×
mult`, computed over the rationals.  The code instead computes
`int(float(g1) * mult)` in binary64, which rounds. -/
def specTruncMul (ip fp : List Char) (mult : Nat) : Nat :=
  (natOfDigits ip * 10 ^ fp.length + natOfDigits fp) * mult / 10 ^ fp.length

/-- `min(max(total_hours, 10), 2000)`. -/
def pyClamp (t : Int) : Int := min (max t 10) 2000

/-- Body of `_parse_time_input` after normalisation; `none` is an
uncaught `OverflowError` from `int()` of an infinite float. -/
def parseTimeChars (cs : List Char) : Option Int :=
  match searchNum cs with
  | none =>
    match findallFirst cs with
    | some n => some (n : Int)
    | none => some 100
  | some m =>
    match findConversion conversions (unitOrDefault m) with
    | some mult =>
      (intOfFloat (floatMulNat (floatOfDec m.intPart m.fracPart) mult)).map pyClamp
    | none => intOfFloat (floatOfDec m.intPart m.fracPart)

/-- `FlexibleRoadmapGenerator._parse_time_input` (app.py 717-759). -/
def parseTimeInput (s : String) : Option Int :=
  parseTimeChars (pyStrip (pyLower s.toList))

/-! ### JSON values

Model of the Python data reachable by `_parse_json_safely`: JSON
values with objects as insertion-ordered key/value sequences (Python
dicts), integer numbers as exact `Int`s and float numbers as binary64
`PyFloat`s.  `JsonArr`/`JsonObj` are specialised list types so that
all recursion stays structural. -/

mutual
inductive Json where
  | null : Json
  | bool : Bool → Json
  | num : Int → Json
  | flt : PyFloat → Json
  | str : String → Json
  | arr : JsonArr → Json
  | obj : JsonObj → Json
inductive JsonArr where
  | nil : JsonArr
  | cons : Json → JsonArr → JsonArr
inductive JsonObj where
  | nil : JsonObj
  | cons : String → Json → JsonObj → JsonObj
end

deriving instance DecidableEq for Json, JsonArr, JsonObj

def JsonObj.hasKey : JsonObj → String → Bool
  | .nil, _ => false
  | .cons k _ t, key => k == key || JsonObj.hasKey t key

/-- `d[k] = v` on a Python dict: replace in place if the key exists,
else append at the end (insertion order is preserved). -/
def pyDictInsert : JsonObj → String → Json → JsonObj
  | .nil, k, v => .cons k v .nil
  | .cons k2 v2 t, k, v =>
    if k2 == k then .cons k2 v t else .cons k2 v2 (pyDictInsert t k v)

def objAppend : JsonObj → JsonObj → JsonObj
  | .nil, m => m
  | .cons k v t, m => .cons k v (objAppend t m)

mutual
/-- Well-formedness, the domain of the serialisation claims: every
object has pairwise distinct keys, and float values are excluded —
Python's shortest-round-trip float formatting is outside the
serialisation model (no claim serialises a float; floats arise in this
development only from parsing). -/
def wfVal : Json → Bool
  | .null => true
  | .bool _ => true
  | .num _ => true
  | .flt _ => false
  | .str _ => true
  | .arr l => wfArr l
  | .obj m => wfObj m
def wfArr : JsonArr → Bool
  | .nil => true
  | .cons v t => wfVal v && wfArr t
def wfObj : JsonObj → Bool
  | .nil => true
  | .cons k v t => !JsonObj.hasKey t k && wfVal v && wfObj t
end

/-- Python truthiness of a JSON value (used by `fallback or {}`); a
float is falsy exactly when it is a (signed) zero. -/
def jsonTruthy : Json → Bool
  | .null => false
  | .bool b => b
  | .num n => if n = 0 then false else true
  | .flt (.finite _ 0 _) => false
  | .flt _ => true
  | .str s => !s.isEmpty
  | .arr .nil => false
  | .arr (.cons _ _) => true
  | .obj .nil => false
  | .obj (.cons _ _ _) => true

/-! ### Serialisation (`json.dumps` with default separators) -/

def quoteChar : Char := Char.ofNat 34

def backslashChar : Char := Char.ofNat 92

def lbraceChar : Char := Char.ofNat 123

def rbraceChar : Char := Char.ofNat 125

def hexDigit (n : Nat) : Char :=
  if n < 10 then Char.ofNat (48 + n) else Char.ofNat (87 + n)

/-- Escape of one character inside a JSON string literal, as
`json.dumps` emits it (`ensure_ascii` disabled for non-ASCII text):
quote and backslash escaped, the five short control escapes, other
control characters as `\u00XX`, everything else verbatim. -/
def escCharDump (c : Char) : List Char :=
  if c = quoteChar then [backslashChar, quoteChar]
  else if c = backslashChar then [backslashChar, backslashChar]
  else if c = Char.ofNat 10 then [backslashChar, 'n']
  else if c = Char.ofNat 13 then [backslashChar, 'r']
  else if c = Char.ofNat 9 then [backslashChar, 't']
  else if c = Char.ofNat 8 then [backslashChar, 'b']
  else if c = Char.ofNat 12 then [backslashChar, 'f']
  else if c.toNat < 32 then
    [backslashChar, 'u', '0', '0', hexDigit (c.toNat / 16), hexDigit (c.toNat % 16)]
  else [c]

def dumpStrBody : List Char → List Char
  | [] => []
  | c :: t => escCharDump c ++ dumpStrBody t

def intChars (n : Int) : List Char :=
  if n < 0 then '-' :: natToChars n.natAbs else natToChars n.toNat

/-- `json.dumps` of a float: `NaN`/`Infinity`/`-Infinity` as emitted
under the default `allow_nan`; the shortest-round-trip repr of finite
floats is outside the modelled fragment (`wfVal` excludes floats and
no claim serialises one), so finite floats map to a marker that is
not valid JSON and about which nothing is proved. -/
def floatRepr : PyFloat → List Char
  | .nan => "NaN".toList
  | .inf false => "Infinity".toList
  | .inf true => "-Infinity".toList
  | .finite _ _ _ => "?finite-float-repr-unmodelled?".toList

mutual
def dumpVal : Json → List Char
  | .null => "null".toList
  | .bool b => if b then "true".toList else "false".toList
  | .num n => intChars n
  | .flt g => floatRepr g
  | .str s => quoteChar :: (dumpStrBody s.toList ++ [quoteChar])
  | .arr l => '[' :: (dumpArr l ++ [']'])
  | .obj m => lbraceChar :: (dumpObj m ++ [rbraceChar])
def dumpArr : JsonArr → List Char
  | .nil => []
  | .cons v t => dumpVal v ++ dumpArrRest t
def dumpArrRest : JsonArr → List Char
  | .nil => []
  | .cons v t => ',' :: ' ' :: (dumpVal v ++ dumpArrRest t)
def dumpObj : JsonObj → List Char
  | .nil => []
  | .cons k v t =>
    (quoteChar :: (dumpStrBody k.toList ++ (quoteChar :: ':' :: ' ' :: dumpVal v))) ++
      dumpObjRest t
def dumpObjRest : JsonObj → List Char
  | .nil => []
  | .cons k v t =>
    ',' :: ' ' ::
      ((quoteChar :: (dumpStrBody k.toList ++ (quoteChar :: ':' :: ' ' :: dumpVal v))) ++
        dumpObjRest t)
end

/-- `json.dumps` of a JSON value. -/
def dumpsJson (v : Json) : String := String.mk (dumpVal v)

/-! ### `json.loads`, embedded as a recursive-descent parser

Python's JSON grammar: object/array/string/number, the literals
`true`/`false`/`null` and (accepted by default) `NaN`/`Infinity`/
`-Infinity`, with whitespace `' '\t\n\r` between tokens, strings
refusing raw control characters (strict mode) and accepting the
standard escapes including 4-hex-digit `\uXXXX`, numbers refusing a
leading zero on a multi-digit integer part and building a binary64
float when a fraction or exponent is present (a `.` or `e` not
followed by digits is not part of the number, exactly as the
scanner's regular expression matches).  One divergence, on values
only, never on acceptance: a `\u` escape of a lone surrogate (kept as
a lone surrogate in a Python `str`) has no `Char` counterpart and
collapses to `NUL`, and surrogate pairs are not combined; no claim
exercises surrogates.  The mutually recursive part is driven by a
fuel parameter; `3 * length + 4` fuel is sufficient for every input
since each descent through three parser frames consumes a
character. -/

def isJsonWs (c : Char) : Bool :=
  c.toNat = 32 || c.toNat = 9 || c.toNat = 10 || c.toNat = 13

def skipWs (cs : List Char) : List Char := cs.dropWhile isJsonWs

def hexVal (c : Char) : Option Nat :=
  if 48 ≤ c.toNat && c.toNat ≤ 57 then some (c.toNat - 48)
  else if 97 ≤ c.toNat && c.toNat ≤ 102 then some (c.toNat - 87)
  else if 65 ≤ c.toNat && c.toNat ≤ 70 then some (c.toNat - 55)
  else none

def escCharParse (c : Char) : Option Char :=
  if c = quoteChar then some quoteChar
  else if c = backslashChar then some backslashChar
  else if c = '/' then some '/'
  else if c = 'b' then some (Char.ofNat 8)
  else if c = 'f' then some (Char.ofNat 12)
  else if c = 'n' then some (Char.ofNat 10)
  else if c = 'r' then some (Char.ofNat 13)
  else if c = 't' then some (Char.ofNat 9)
  else none

/-- Worker for `parseStrBody`; the fuel only drives the recursion and
strictly exceeds the number of characters, so it never runs out. -/
def parseStrBodyAux : Nat → List Char → Option (List Char × List Char)
  | 0, _ => none
  | _ + 1, [] => none
  | fuel + 1, c :: rest =>
    if c = quoteChar then some ([], rest)
    else if c = backslashChar then
      match rest with
      | [] => none
      | e :: rest2 =>
        if e = 'u' then
          match rest2 with
          | h1 :: h2 :: h3 :: h4 :: rest3 =>
            match hexVal h1, hexVal h2, hexVal h3, hexVal h4 with
            | some a, some b, some c2, some d =>
              let n := ((a * 16 + b) * 16 + c2) * 16 + d
              match parseStrBodyAux fuel rest3 with
              | some (s, r) => some (Char.ofNat n :: s, r)
              | none => none
            | _, _, _, _ => none
          | _ => none
        else
          match escCharParse e with
          | some ec =>
            match parseStrBodyAux fuel rest2 with
            | some (s, r) => some (ec :: s, r)
            | none => none
          | none => none
    else if c.toNat < 32 then none
    else
      match parseStrBodyAux fuel rest with
      | some (s, r) => some (c :: s, r)
      | none => none

/-- Parse the body of a JSON string literal (after the opening quote)
up to and including the closing quote. -/
def parseStrBody (cs : List Char) : Option (List Char × List Char) :=
  parseStrBodyAux (cs.length + 1) cs

/-- The optional fraction `(\.\d+)?` of a JSON number: a dot not
followed by a digit is not part of the number. -/
def parseFracOpt : List Char → List Char × List Char
  | [] => ([], [])
  | c :: r =>
    if c = '.' then
      match r.takeWhile isDigitCh with
      | [] => ([], c :: r)
      | d :: ds => (d :: ds, r.dropWhile isDigitCh)
    else ([], c :: r)

/-- The optional exponent `([eE][-+]?\d+)?` of a JSON number: an `e`
not followed by (a sign and) digits is not part of the number. -/
def parseExpOpt : List Char → Option Int × List Char
  | [] => (none, [])
  | c :: r =>
    if c = 'e' || c = 'E' then
      match r with
      | [] => (none, c :: r)
      | s :: r2 =>
        if s = '+' then
          match r2.takeWhile isDigitCh with
          | [] => (none, c :: r)
          | d :: ds => (some ((natOfDigits (d :: ds) : Int)), r2.dropWhile isDigitCh)
        else if s = '-' then
          match r2.takeWhile isDigitCh with
          | [] => (none, c :: r)
          | d :: ds => (some (-(natOfDigits (d :: ds) : Int)), r2.dropWhile isDigitCh)
        else
          match r.takeWhile isDigitCh with
          | [] => (none, c :: r)
          | d :: ds => (some ((natOfDigits (d :: ds) : Int)), r.dropWhile isDigitCh)
    else (none, c :: r)

/-- A JSON number after the optional sign: an integer part with no
leading zero (unless it is the single digit `0`), then the optional
fraction and exponent; with neither, the value is the exact integer,
otherwise the `float()` of the literal (correctly rounded binary64,
as the scanner builds it). -/
def parseNumCore (sign : Bool) (cs1 : List Char) : Option (Json × List Char) :=
  match cs1 with
  | [] => none
  | c :: _ =>
    if isDigitCh c then
      if 1 < (cs1.takeWhile isDigitCh).length &&
          (cs1.takeWhile isDigitCh).head? = some '0' then none
      else
        match parseFracOpt (cs1.dropWhile isDigitCh) with
        | (fr, r2) =>
          match parseExpOpt r2 with
          | (ex, r3) =>
            if fr.isEmpty && ex.isNone then
              some (.num (if sign then -(natOfDigits (cs1.takeWhile isDigitCh) : Int)
                else (natOfDigits (cs1.takeWhile isDigitCh) : Int)), r3)
            else
              some (.flt (floatOfDecExp sign (cs1.takeWhile isDigitCh ++ fr)
                (ex.getD 0 - (fr.length : Int))), r3)
    else none

/-- Parse a JSON number (the scanner's `NUMBER_RE` match plus value
construction). -/
def parseNum (cs : List Char) : Option (Json × List Char) :=
  match cs with
  | c :: t => if c = '-' then parseNumCore true t else parseNumCore false cs
  | [] => parseNumCore false cs

mutual
def parseVal : Nat → List Char → Option (Json × List Char)
  | 0, _ => none
  | f + 1, cs0 =>
    match skipWs cs0 with
    | [] => none
    | c :: rest =>
      if c = lbraceChar then parseMembersFirst f rest
      else if c = '[' then parseElemsFirst f rest
      else if c = quoteChar then
        match parseStrBody rest with
        | some (s, r) => some (.str (String.mk s), r)
        | none => none
      else if c = 't' then
        if "rue".toList.isPrefixOf rest then some (.bool true, rest.drop 3) else none
      else if c = 'f' then
        if "alse".toList.isPrefixOf rest then some (.bool false, rest.drop 4) else none
      else if c = 'n' then
        if "ull".toList.isPrefixOf rest then some (.null, rest.drop 3) else none
      else if c = 'N' then
        if "aN".toList.isPrefixOf rest then some (.flt .nan, rest.drop 2) else none
      else if c = 'I' then
        if "nfinity".toList.isPrefixOf rest then some (.flt (.inf false), rest.drop 7)
        else none
      else if c = '-' then
        if "Infinity".toList.isPrefixOf rest then some (.flt (.inf true), rest.drop 8)
        else parseNum (c :: rest)
      else if isDigitCh c then parseNum (c :: rest)
      else none
def parseMembersFirst : Nat → List Char → Option (Json × List Char)
  | 0, _ => none
  | f + 1, cs =>
    match skipWs cs with
    | c :: rest =>
      if c = rbraceChar then some (.obj .nil, rest) else parseMembersRest f (c :: rest) .nil
    | [] => none
def parseMembersRest : Nat → List Char → JsonObj → Option (Json × List Char)
  | 0, _, _ => none
  | f + 1, cs, acc =>
    match skipWs cs with
    | c :: rest =>
      if c = quoteChar then
        match parseStrBody rest with
        | some (k, r1) =>
          match skipWs r1 with
          | c2 :: r2 =>
            if c2 = ':' then
              match parseVal f r2 with
              | some (v, r3) =>
                match skipWs r3 with
                | c3 :: r4 =>
                  if c3 = ',' then parseMembersRest f r4 (pyDictInsert acc (String.mk k) v)
                  else if c3 = rbraceChar then
                    some (.obj (pyDictInsert acc (String.mk k) v), r4)
                  else none
                | [] => none
              | none => none
            else none
          | [] => none
        | none => none
      else none
    | [] => none
def parseElemsFirst : Nat → List Char → Option (Json × List Char)
  | 0, _ => none
  | f + 1, cs =>
    match skipWs cs with
    | c :: rest =>
      if c = ']' then some (.arr .nil, rest)
      else
        match parseElemsRest f (c :: rest) with
        | some (t, r) => some (.arr t, r)
        | none => none
    | [] => none
def parseElemsRest : Nat → List Char → Option (JsonArr × List Char)
  | 0, _ => none
  | f + 1, cs =>
    match parseVal f cs with
    | some (v, r) =>
      match skipWs r with
      | c :: r2 =>
        if c = ',' then
          match parseElemsRest f r2 with
          | some (t, r3) => some (.cons v t, r3)
          | none => none
        else if c = ']' then some (.cons v .nil, r2)
        else none
      | [] => none
    | none => none
end

/-- `json.loads`: parse one JSON document, allowing only whitespace
around it. -/
def jsonLoadsChars (cs : List Char) : Option Json :=
  match parseVal (3 * cs.length + 4) cs with
  | some (v, r) => if (skipWs r).isEmpty then some v else none
  | none => none

/-! ### `_parse_json_safely` (app.py 777-806)

```
content = response_content.strip()
if "```json" in content:
    start = content.find("```json") + 7
    end = content.find("```", start)
    if end != -1:
        content = content[start:end].strip()
elif "```" in content:
    start = content.find("```") + 3
    end = content.find("```", start)
    if end != -1:
        content = content[start:end].strip()
if not content.startswith('<lbrace>'):
    start_idx = content.find('<lbrace>')
    if start_idx != -1:
        end_idx = content.rfind('<rbrace>')
        if end_idx != -1:
            content = content[start_idx:end_idx+1]
return json.loads(content)   -- on JSONDecodeError/ValueError: fallback or <empty dict>
```
-/

def fence3 : List Char := "```".toList

def fenceJson : List Char := "```json".toList

/-- `str.find` (leftmost occurrence of a pattern, `none` for `-1`). -/
def findSub : List Char → List Char → Option Nat
  | [], pat => if pat.isPrefixOf [] then some 0 else none
  | c :: t, pat =>
    if pat.isPrefixOf (c :: t) then some 0 else (findSub t pat).map (· + 1)

/-- `str.find` with a start index. -/
def findSubFrom (cs pat : List Char) (start : Nat) : Option Nat :=
  (findSub (cs.drop start) pat).map (· + start)

/-- `str.rfind` for a single character. -/
def rfindChar : List Char → Char → Option Nat
  | [], _ => none
  | c :: t, ch =>
    match rfindChar t ch with
    | some i => some (i + 1)
    | none => if c = ch then some 0 else none

/-- Python slice `cs[a:b]`. -/
def pySlice (cs : List Char) (a b : Nat) : List Char := (cs.take b).drop a

/-- The code-fence extraction step. -/
def fenceStep (content : List Char) : List Char :=
  match findSub content fenceJson with
  | some i =>
    match findSubFrom content fence3 (i + 7) with
    | some e => pyStrip (pySlice content (i + 7) e)
    | none => content
  | none =>
    match findSub content fence3 with
    | some i =>
      match findSubFrom content fence3 (i + 3) with
      | some e => pyStrip (pySlice content (i + 3) e)
      | none => content
    | none => content

/-- The brace-slice step. -/
def braceStep (content : List Char) : List Char :=
  if content.head? = some lbraceChar then content
  else
    match findSub content [lbraceChar] with
    | some si =>
      match rfindChar content rbraceChar with
      | some ei => pySlice content si (ei + 1)
      | none => content
    | none => content

/-- The candidate text handed to `json.loads`. -/
def extractCandidate (cs : List Char) : List Char :=
  braceStep (fenceStep (pyStrip cs))

/-- `fallback or <empty dict>` (the fallback parameter defaults to
`None`; a falsy fallback is replaced by a fresh empty dict, which for
dict-valued fallbacks is extensionally the fallback itself). -/
def pyOrEmpty : Option Json → Json
  | none => .obj .nil
  | some f => if jsonTruthy f then f else .obj .nil

/-- `FlexibleRoadmapGenerator._parse_json_safely` (app.py 777-806). -/
def parseJsonSafely (responseContent : String) (fallback : Option Json) : Json :=
  match jsonLoadsChars (extractCandidate responseContent.toList) with
  | some v => v
  | none => pyOrEmpty fallback

/-- Characters that may not directly follow a serialised number
(digits would extend the number, `.`/`e`/`E` would make it a float). -/
def numBoundary : List Char → Prop
  | [] => True
  | c :: _ => isDigitCh c = false ∧ c ≠ '.' ∧ c ≠ 'e' ∧ c ≠ 'E'

mutual
/-- Fuel sufficient for `parseVal` to parse the serialisation of a
value (each constructor counts the parser frames it descends
through). -/
def needVal : Json → Nat
  | .null => 1
  | .bool _ => 1
  | .num _ => 1
  | .flt _ => 1
  | .str _ => 1
  | .arr l => 2 + needArr l
  | .obj m => 2 + needObj m
def needArr : JsonArr → Nat
  | .nil => 0
  | .cons v t => 1 + needVal v + needArr t
def needObj : JsonObj → Nat
  | .nil => 0
  | .cons _ v t => 1 + needVal v + needObj t
end

/-- Every key of the second object is absent from the first. -/
def allFresh (acc : JsonObj) : JsonObj → Bool
  | .nil => true
  | .cons k _ t => !JsonObj.hasKey acc k && allFresh acc t

/-! ### The recursion limit of `json.loads`

CPython's JSON scanner guards its recursion with the interpreter
recursion limit: descending into arrays or objects nested beyond the
limit raises `RecursionError`, which the
`except (json.JSONDecodeError, ValueError)` handler of
`_parse_json_safely` does not catch (`RecursionError` is not a
`ValueError`).  The limit is a runtime parameter of the interpreter,
not derivable from the source text, so the parser below takes the
remaining container-nesting budget as an explicit argument: it is the
parser above with `.error .decode` for a parse failure and
`.error .recursion` when a container opens with the budget exhausted
(scalar tokens consume no budget).  `jsonLoadsChars` above is the
idealisation of an inexhaustible budget. -/

inductive JsonErr where
  | decode
  | recursion
deriving DecidableEq, Repr

deriving instance DecidableEq for Except

mutual
def parseValD : Nat → Nat → List Char → Except JsonErr (Json × List Char)
  | 0, _, _ => .error .decode
  | f + 1, depth, cs0 =>
    match skipWs cs0 with
    | [] => .error .decode
    | c :: rest =>
      if c = lbraceChar then
        match depth with
        | 0 => .error .recursion
        | d + 1 => parseMembersFirstD f d rest
      else if c = '[' then
        match depth with
        | 0 => .error .recursion
        | d + 1 => parseElemsFirstD f d rest
      else if c = quoteChar then
        match parseStrBody rest with
        | some (s, r) => .ok (.str (String.mk s), r)
        | none => .error .decode
      else if c = 't' then
        if "rue".toList.isPrefixOf rest then .ok (.bool true, rest.drop 3)
        else .error .decode
      else if c = 'f' then
        if "alse".toList.isPrefixOf rest then .ok (.bool false, rest.drop 4)
        else .error .decode
      else if c = 'n' then
        if "ull".toList.isPrefixOf rest then .ok (.null, rest.drop 3)
        else .error .decode
      else if c = 'N' then
        if "aN".toList.isPrefixOf rest then .ok (.flt .nan, rest.drop 2)
        else .error .decode
      else if c = 'I' then
        if "nfinity".toList.isPrefixOf rest then .ok (.flt (.inf false), rest.drop 7)
        else .error .decode
      else if c = '-' then
        if "Infinity".toList.isPrefixOf rest then .ok (.flt (.inf true), rest.drop 8)
        else
          match parseNum (c :: rest) with
          | some (j, r) => .ok (j, r)
          | none => .error .decode
      else if isDigitCh c then
        match parseNum (c :: rest) with
        | some (j, r) => .ok (j, r)
        | none => .error .decode
      else .error .decode
  termination_by structural f depth cs0 => f
def parseMembersFirstD : Nat → Nat → List Char → Except JsonErr (Json × List Char)
  | 0, _, _ => .error .decode
  | f + 1, depth, cs =>
    match skipWs cs with
    | c :: rest =>
      if c = rbraceChar then .ok (.obj .nil, rest)
      else parseMembersRestD f depth (c :: rest) .nil
    | [] => .error .decode
  termination_by structural f depth cs => f
def parseMembersRestD : Nat → Nat → List Char → JsonObj → Except JsonErr (Json × List Char)
  | 0, _, _, _ => .error .decode
  | f + 1, depth, cs, acc =>
    match skipWs cs with
    | c :: rest =>
      if c = quoteChar then
        match parseStrBody rest with
        | some (k, r1) =>
          match skipWs r1 with
          | c2 :: r2 =>
            if c2 = ':' then
              match parseValD f depth r2 with
              | .ok (v, r3) =>
                match skipWs r3 with
                | c3 :: r4 =>
                  if c3 = ',' then
                    parseMembersRestD f depth r4 (pyDictInsert acc (String.mk k) v)
                  else if c3 = rbraceChar then
                    .ok (.obj (pyDictInsert acc (String.mk k) v), r4)
                  else .error .decode
                | [] => .error .decode
              | .error e => .error e
            else .error .decode
          | [] => .error .decode
        | none => .error .decode
      else .error .decode
    | [] => .error .decode
  termination_by structural f depth cs acc => f
def parseElemsFirstD : Nat → Nat → List Char → Except JsonErr (Json × List Char)
  | 0, _, _ => .error .decode
  | f + 1, depth, cs =>
    match skipWs cs with
    | c :: rest =>
      if c = ']' then .ok (.arr .nil, rest)
      else
        match parseElemsRestD f depth (c :: rest) with
        | .ok (t, r) => .ok (.arr t, r)
        | .error e => .error e
    | [] => .error .decode
  termination_by structural f depth cs => f
def parseElemsRestD : Nat → Nat → List Char → Except JsonErr (JsonArr × List Char)
  | 0, _, _ => .error .decode
  | f + 1, depth, cs =>
    match parseValD f depth cs with
    | .ok (v, r) =>
      match skipWs r with
      | c :: r2 =>
        if c = ',' then
          match parseElemsRestD f depth r2 with
          | .ok (t, r3) => .ok (.cons v t, r3)
          | .error e => .error e
        else if c = ']' then .ok (.cons v .nil, r2)
        else .error .decode
      | [] => .error .decode
    | .error e => .error e
  termination_by structural f depth cs => f
end

/-- `json.loads` with the recursion budget explicit. -/
def jsonLoadsD (limit : Nat) (cs : List Char) : Except JsonErr Json :=
  match parseValD (3 * cs.length + 4) limit cs with
  | .ok (v, r) => if (skipWs r).isEmpty then .ok v else .error .decode
  | .error e => .error e

/-- `_parse_json_safely` with the recursion budget explicit: the
`except (json.JSONDecodeError, ValueError)` clause catches decoding
failures only, while a `RecursionError` propagates to the caller. -/
def parseJsonSafelyD (limit : Nat) (responseContent : String)
    (fallback : Option Json) : Except JsonErr Json :=
  match jsonLoadsD limit (extractCandidate responseContent.toList) with
  | .ok v => .ok v
  | .error .decode => .ok (pyOrEmpty fallback)
  | .error .recursion => .error .recursion

example : parseTimeInput "100 hours" = some 100 := by decide
example : parseTimeInput "2 months" = some 320 := by decide
example : parseTimeInput "10 weeks" = some 400 := by decide
example : parseTimeInput "30 days" = some 240 := by decide
example : parseTimeInput "1 year" = some 1920 := by decide
example : parseTimeInput "2.5 weeks" = some 100 := by decide
example : parseTimeInput "7" = some 10 := by decide
example : parseTimeInput "1 hour" = some 10 := by decide
example : parseTimeInput "5000 hours" = some 2000 := by decide
example : parseTimeInput "" = some 100 := by decide
example : parseTimeInput "abc" = some 100 := by decide
example : parseTimeInput "5 fortnights" = some 5 := by decide
example : parseTimeInput "3 m" = some 480 := by decide
example : parseTimeInput "250" = some 250 := by decide
example : parseTimeInput "  2 Months  " = some 320 := by decide
example : parseTimeInput "0.1 weeks" = some 10 := by decide
example : parseTimeInput "0.7 weeks" = some 28 := by decide
example : parseTimeInput "10.999999999999999999 hours" = some 11 := by decide
example : parseTimeInput "9007199254740993 fortnight" = some 9007199254740992 := by decide
example : floatOfDec "2".toList "5".toList = .finite false 5629499534213120 (-51) := by decide
example : floatOfDec ("1".toList ++ List.replicate 309 '0') [] = .inf false := by decide

example : jsonLoadsChars ("\x7b\"a\": 1\x7d".toList) =
    some (.obj (.cons "a" (.num 1) .nil)) := by decide
example : jsonLoadsChars ("\x7b\x7d".toList) = some (.obj .nil) := by decide
example : jsonLoadsChars ("not json at all".toList) = none := by decide
example : jsonLoadsChars (" [1, -2, true, null, \"x\"] ".toList) =
    some (.arr (.cons (.num 1) (.cons (.num (-2)) (.cons (.bool true)
      (.cons .null (.cons (.str "x") .nil)))))) := by decide
example : jsonLoadsChars ("\x7b\"a\": 1.5\x7d".toList) =
    some (.obj (.cons "a" (.flt (.finite false 6755399441055744 (-52))) .nil)) := by decide
example : jsonLoadsChars ("0.1".toList) =
    some (.flt (.finite false 7205759403792794 (-56))) := by decide
example : jsonLoadsChars ("1e5".toList) =
    some (.flt (.finite false 6871947673600000 (-36))) := by decide
example : jsonLoadsChars ("1e999".toList) = some (.flt (.inf false)) := by decide
example : jsonLoadsChars ("[NaN, Infinity, -Infinity]".toList) =
    some (.arr (.cons (.flt .nan) (.cons (.flt (.inf false))
      (.cons (.flt (.inf true)) .nil)))) := by decide
example : jsonLoadsChars ("-0.0".toList) = some (.flt (.finite true 0 0)) := by decide
example : jsonLoadsChars ("1.".toList) = none := by decide
example : jsonLoadsChars ("01".toList) = none := by decide
example : jsonLoadsChars ("1e+".toList) = none := by decide
example : jsonLoadsChars (".5".toList) = none := by decide
example : jsonLoadsChars ("-NaN".toList) = none := by decide
example : jsonLoadsChars ("\"\\u0041\\u00e9\"".toList) = some (.str "Aé") := by decide
example : jsonLoadsChars ("1.5e0001".toList) =
    some (.flt (.finite false 8444249301319680 (-49))) := by decide
example : parseJsonSafelyD 1000 "\x7b\"a\": 1\x7d" (some (.obj .nil)) =
    .ok (.obj (.cons "a" (.num 1) .nil)) := by decide
example : parseJsonSafelyD 1000 "not json at all" (some (.obj (.cons "k" (.num 3) .nil))) =
    .ok (.obj (.cons "k" (.num 3) .nil)) := by decide
example : parseJsonSafelyD 3 "[[[1]]]" (some (.obj .nil)) =
    .ok (.arr (.cons (.arr (.cons (.arr (.cons (.num 1) .nil)) .nil)) .nil)) := by decide
example : parseJsonSafelyD 2 "[[[1]]]" (some (.obj .nil)) = .error .recursion := by decide
example : jsonLoadsD 3 "[[2, [3]], 4]".toList =
    .ok (.arr (.cons (.arr (.cons (.num 2) (.cons (.arr (.cons (.num 3) .nil)) .nil)))
      (.cons (.num 4) .nil))) := by decide
example : jsonLoadsD 2 "[[1], [2]]".toList =
    .ok (.arr (.cons (.arr (.cons (.num 1) .nil))
      (.cons (.arr (.cons (.num 2) .nil)) .nil))) := by decide
example : parseJsonSafely "```json\n\x7b\"a\": 1\x7d\n```" (some (.obj .nil)) =
    .obj (.cons "a" (.num 1) .nil) := by decide
example : parseJsonSafely "Here is your result: \x7b\"a\": 1\x7d — enjoy!" (some (.obj .nil)) =
    .obj (.cons "a" (.num 1) .nil) := by decide
example : parseJsonSafely "not json at all" (some (.obj (.cons "fallback" (.bool true) .nil))) =
    .obj (.cons "fallback" (.bool true) .nil) := by decide
example : parseJsonSafely "\x7b\x7d" (some (.obj (.cons "fallback" (.bool true) .nil))) =
    .obj .nil := by decide
example : dumpsJson (.obj (.cons "a" (.str "``````") .nil)) = "\x7b\"a\": \"``````\"\x7d" := by decide
example : parseJsonSafely (dumpsJson (.obj (.cons "a" (.str "``````") .nil))) (some (.obj .nil)) =
    .obj .nil := by decide
example : jsonLoadsChars (dumpVal (.obj (.cons "a" (.str "x\n\x7b\x00y" )
    (.cons "b" (.arr (.cons (.num (-12)) (.cons (.str "\\ \" /") .nil))) .nil)))) =
    some (.obj (.cons "a" (.str "x\n\x7b\x00y")
      (.cons "b" (.arr (.cons (.num (-12)) (.cons (.str "\\ \" /") .nil))) .nil))) := by decide

/-! ### Basic character and list lemmas -/

theorem toNat_ofNat_valid (n : Nat) (h : n < 55296) : (Char.ofNat n).toNat = n := by
  have hv : n.isValidChar := Or.inl h
  simp [Char.ofNat, hv, Char.ofNatAux, Char.toNat, UInt32.toNat]

theorem ne_of_pred {p : Char → Bool} {d c : Char} (h : p d = true) (hc : p c = false) :
    d ≠ c := fun he => by subst he; rw [h] at hc; cases hc

theorem isDigitCh_iff {c : Char} : isDigitCh c = true ↔ 48 ≤ c.toNat ∧ c.toNat ≤ 57 := by
  simp [isDigitCh]

theorem isLowerAZ_iff {c : Char} : isLowerAZ c = true ↔ 97 ≤ c.toNat ∧ c.toNat ≤ 122 := by
  simp [isLowerAZ]

theorem isPySpace_iff {c : Char} : isPySpace c = true ↔
    c.toNat = 32 ∨ c.toNat = 9 ∨ c.toNat = 10 ∨ c.toNat = 13 ∨
    c.toNat = 11 ∨ c.toNat = 12 := by
  simp [isPySpace]
  tauto

theorem toNat_pyLowerChar (c : Char) :
    (pyLowerChar c).toNat = if 65 ≤ c.toNat ∧ c.toNat ≤ 90 then c.toNat + 32 else c.toNat := by
  by_cases h : 65 ≤ c.toNat ∧ c.toNat ≤ 90
  · rw [if_pos h]
    unfold pyLowerChar
    rw [if_pos (by simpa using h)]
    exact toNat_ofNat_valid _ (by omega)
  · rw [if_neg h]
    unfold pyLowerChar
    rw [if_neg (by simpa using h)]

theorem isDigitCh_pyLowerChar (c : Char) : isDigitCh (pyLowerChar c) = isDigitCh c := by
  rw [Bool.eq_iff_iff, isDigitCh_iff, isDigitCh_iff, toNat_pyLowerChar]
  by_cases h : 65 ≤ c.toNat ∧ c.toNat ≤ 90
  · rw [if_pos h]; omega
  · rw [if_neg h]

theorem pyLowerChar_eq_self {c : Char} (h : ¬(65 ≤ c.toNat ∧ c.toNat ≤ 90)) :
    pyLowerChar c = c := by
  unfold pyLowerChar
  rw [if_neg (by simpa using h)]

theorem takeWhile_append_all {α : Type} {p : α → Bool} :
    ∀ (a b : List α), (∀ c ∈ a, p c = true) → (∀ c, b.head? = some c → p c = false) →
      (a ++ b).takeWhile p = a ∧ (a ++ b).dropWhile p = b
  | [], b, _, hb => by
    cases b with
    | nil => simp
    | cons c t =>
      have hc := hb c rfl
      simp [List.takeWhile_cons, List.dropWhile_cons, hc]
  | c :: a, b, ha, hb => by
    have hc := ha c (List.mem_cons_self _ _)
    have ih := takeWhile_append_all a b (fun x hx => ha x (List.mem_cons_of_mem _ hx)) hb
    simp [List.takeWhile_cons, List.dropWhile_cons, hc, ih.1, ih.2]

theorem takeWhile_all {α : Type} {p : α → Bool} (a : List α)
    (ha : ∀ c ∈ a, p c = true) : a.takeWhile p = a := by
  have := takeWhile_append_all a [] ha (by intro c h; cases h)
  simpa using this.1

theorem dropWhile_all {α : Type} {p : α → Bool} (a : List α)
    (ha : ∀ c ∈ a, p c = true) : a.dropWhile p = [] := by
  have := takeWhile_append_all a [] ha (by intro c h; cases h)
  simpa using this.2

theorem dropWhile_cons_neg {α : Type} {p : α → Bool} {c : α} (l : List α)
    (h : p c = false) : (c :: l).dropWhile p = c :: l := by
  simp [List.dropWhile_cons, h]

/-! ### Decimal digit strings -/

theorem digitChar_spec : ∀ n : Fin 10,
    isDigitCh (digitChar n.val) = true ∧ digitVal (digitChar n.val) = n.val ∧
    (digitChar n.val = '0' ↔ n.val = 0) := by decide

theorem natOfDigits_append_one (a : List Char) (c : Char) :
    natOfDigits (a ++ [c]) = 10 * natOfDigits a + digitVal c := by
  simp [natOfDigits, List.foldl_append]

theorem natToCharsAux_spec : ∀ (fuel n : Nat), n < fuel →
    natOfDigits (natToCharsAux fuel n) = n ∧
    (∀ c ∈ natToCharsAux fuel n, isDigitCh c = true) ∧
    natToCharsAux fuel n ≠ [] ∧
    (∀ c, (natToCharsAux fuel n).head? = some c → (c = '0' → n = 0))
  | 0, n, h => by omega
  | fuel + 1, n, h => by
    by_cases h10 : n < 10
    · have hdv : digitVal (digitChar n) = n := by
        simpa using (digitChar_spec ⟨n, h10⟩).2.1
      have hdd : isDigitCh (digitChar n) = true := by
        simpa using (digitChar_spec ⟨n, h10⟩).1
      have hd0 : digitChar n = '0' ↔ n = 0 := by
        simpa using (digitChar_spec ⟨n, h10⟩).2.2
      refine ⟨?_, ?_, ?_, ?_⟩
      · simp [natToCharsAux, h10, natOfDigits, hdv]
      · intro c hc
        simp [natToCharsAux, h10] at hc
        subst hc; exact hdd
      · simp [natToCharsAux, h10]
      · intro c hc hc0
        simp [natToCharsAux, h10] at hc
        subst hc
        exact hd0.mp hc0
    · have hlt : n / 10 < fuel := by omega
      have ih := natToCharsAux_spec fuel (n / 10) hlt
      have hdv : digitVal (digitChar (n % 10)) = n % 10 := by
        simpa using (digitChar_spec ⟨n % 10, by omega⟩).2.1
      have hdd : isDigitCh (digitChar (n % 10)) = true := by
        simpa using (digitChar_spec ⟨n % 10, by omega⟩).1
      have hrw : natToCharsAux (fuel + 1) n =
          natToCharsAux fuel (n / 10) ++ [digitChar (n % 10)] := by
        simp [natToCharsAux, h10]
      refine ⟨?_, ?_, ?_, ?_⟩
      · rw [hrw, natOfDigits_append_one, ih.1, hdv]; omega
      · intro c hc
        rw [hrw] at hc
        rcases List.mem_append.mp hc with hc | hc
        · exact ih.2.1 c hc
        · simp at hc; subst hc; exact hdd
      · rw [hrw]; simp
      · intro c hc hc0
        rw [hrw] at hc
        obtain ⟨d, t, hdt⟩ := List.exists_cons_of_ne_nil ih.2.2.1
        rw [hdt, List.cons_append, List.head?_cons] at hc
        have hdc := Option.some.inj hc
        have h0 := ih.2.2.2 d (by rw [hdt]; rfl) (by rw [hdc]; exact hc0)
        omega

theorem natToChars_val (n : Nat) : natOfDigits (natToChars n) = n :=
  (natToCharsAux_spec (n + 1) n (by omega)).1

theorem natToChars_digits (n : Nat) : ∀ c ∈ natToChars n, isDigitCh c = true :=
  (natToCharsAux_spec (n + 1) n (by omega)).2.1

theorem natToChars_ne_nil (n : Nat) : natToChars n ≠ [] :=
  (natToCharsAux_spec (n + 1) n (by omega)).2.2.1

theorem natToChars_head_zero (n : Nat) :
    ∀ c, (natToChars n).head? = some c → (c = '0' → n = 0) :=
  (natToCharsAux_spec (n + 1) n (by omega)).2.2.2

/-! ### Lemmas about the duration parser -/

theorem searchNum_none_of_noDigit : ∀ cs : List Char,
    (∀ c ∈ cs, isDigitCh c = false) → searchNum cs = none
  | [], _ => rfl
  | c :: t, h => by
    have hc := h c (List.mem_cons_self _ _)
    simp only [searchNum, hc, Bool.false_eq_true, if_false]
    exact searchNum_none_of_noDigit t fun x hx => h x (List.mem_cons_of_mem _ hx)

theorem noDigit_of_searchNum_none : ∀ cs : List Char, searchNum cs = none →
    ∀ c ∈ cs, isDigitCh c = false
  | [], _, c, hc => by cases hc
  | d :: t, h, c, hc => by
    by_cases hd : isDigitCh d = true
    · exfalso; simp [searchNum, hd] at h
    · have hdf : isDigitCh d = false := by simpa using hd
      rcases List.mem_cons.mp hc with rfl | hc2
      · exact hdf
      · have ht : searchNum t = none := by simpa [searchNum, hdf] using h
        exact noDigit_of_searchNum_none t ht c hc2

theorem findallFirst_none : ∀ cs : List Char,
    (∀ c ∈ cs, isDigitCh c = false) → findallFirst cs = none
  | [], _ => rfl
  | c :: t, h => by
    have hc := h c (List.mem_cons_self _ _)
    simp only [findallFirst, hc, Bool.false_eq_true, if_false]
    exact findallFirst_none t fun x hx => h x (List.mem_cons_of_mem _ hx)

theorem noDigit_pyLower (l : List Char) (h : ∀ c ∈ l, isDigitCh c = false) :
    ∀ c ∈ pyLower l, isDigitCh c = false := by
  intro c hc
  rcases List.mem_map.mp hc with ⟨d, hd, rfl⟩
  rw [isDigitCh_pyLowerChar]
  exact h d hd

theorem mem_pyStrip {c : Char} {l : List Char} (h : c ∈ pyStrip l) : c ∈ l := by
  unfold pyStrip at h
  have h1 := List.mem_reverse.mp h
  have h2 := (List.dropWhile_sublist (l := (l.dropWhile isPySpace).reverse)
    (p := isPySpace)).subset h1
  have h3 := List.mem_reverse.mp h2
  exact (List.dropWhile_sublist (l := l) (p := isPySpace)).subset h3

theorem dropWhile_cons_pos {α : Type} {p : α → Bool} {c : α} (l : List α)
    (h : p c = true) : (c :: l).dropWhile p = l.dropWhile p := by
  simp [List.dropWhile_cons, h]

theorem pyLower_eq_self (l : List Char) (h : ∀ c ∈ l, pyLowerChar c = c) :
    pyLower l = l := by
  unfold pyLower
  induction l with
  | nil => rfl
  | cons c t ih =>
    simp only [List.map_cons]
    rw [h c (List.mem_cons_self _ _), ih fun x hx => h x (List.mem_cons_of_mem _ hx)]

theorem pyStrip_eq_self (l : List Char)
    (hh : ∀ c, l.head? = some c → isPySpace c = false)
    (hl : ∀ c, l.getLast? = some c → isPySpace c = false) : pyStrip l = l := by
  unfold pyStrip
  have h1 : l.dropWhile isPySpace = l := by
    cases l with
    | nil => rfl
    | cons c t => exact dropWhile_cons_neg t (hh c rfl)
  rw [h1]
  have h2 : l.reverse.dropWhile isPySpace = l.reverse := by
    cases hr : l.reverse with
    | nil => rfl
    | cons c t =>
      refine dropWhile_cons_neg t (hl c ?_)
      rw [← List.head?_reverse, hr]
      rfl
  rw [h2, List.reverse_reverse]

theorem normalize_eq_self (l : List Char)
    (hlow : ∀ c ∈ l, pyLowerChar c = c)
    (hh : ∀ c, l.head? = some c → isPySpace c = false)
    (hl : ∀ c, l.getLast? = some c → isPySpace c = false) :
    pyStrip (pyLower l) = l := by
  rw [pyLower_eq_self l hlow, pyStrip_eq_self l hh hl]

theorem digit_lower_self {c : Char} (h : isDigitCh c = true) : pyLowerChar c = c :=
  pyLowerChar_eq_self (by rw [isDigitCh_iff] at h; omega)

theorem lower_lower_self {c : Char} (h : isLowerAZ c = true) : pyLowerChar c = c :=
  pyLowerChar_eq_self (by rw [isLowerAZ_iff] at h; omega)

theorem digit_not_space {c : Char} (h : isDigitCh c = true) : isPySpace c = false := by
  rw [Bool.eq_false_iff]
  intro hs
  rw [isPySpace_iff] at hs
  rw [isDigitCh_iff] at h
  omega

theorem lower_not_space {c : Char} (h : isLowerAZ c = true) : isPySpace c = false := by
  rw [Bool.eq_false_iff]
  intro hs
  rw [isPySpace_iff] at hs
  rw [isLowerAZ_iff] at h
  omega

theorem searchNum_eq_matchAt (d : Char) (t : List Char) (hd : isDigitCh d = true) :
    searchNum (d :: t) = some (matchAt (d :: t)) := by
  simp [searchNum, hd]

theorem dropWhile_space_unit (u : List Char) (hu : ∀ c ∈ u, isLowerAZ c = true) :
    u.dropWhile isPySpace = u := by
  cases u with
  | nil => rfl
  | cons c t => exact dropWhile_cons_neg t (lower_not_space (hu c (List.mem_cons_self _ _)))

theorem matchAt_noFrac (ip u : List Char)
    (hip : ∀ c ∈ ip, isDigitCh c = true) (hu : ∀ c ∈ u, isLowerAZ c = true) :
    matchAt (ip ++ ' ' :: u) = ⟨ip, [], u⟩ := by
  have hta := takeWhile_append_all ip (' ' :: u) hip
    (fun c hc => by injection hc with h; subst h; decide)
  unfold matchAt
  rw [hta.1, hta.2]
  have hfrac : fracOf (' ' :: u) = [] := by simp [fracOf]
  have hafter : afterFrac (' ' :: u) = ' ' :: u := by simp [afterFrac]
  have hunit : unitOf (' ' :: u) = u := by
    unfold unitOf
    rw [hafter, dropWhile_cons_pos u (by decide), dropWhile_space_unit u hu,
      takeWhile_all u hu]
  rw [hfrac, hunit]

theorem matchAt_frac (ip fp u : List Char)
    (hip : ∀ c ∈ ip, isDigitCh c = true) (hfp : ∀ c ∈ fp, isDigitCh c = true)
    (hu : ∀ c ∈ u, isLowerAZ c = true) :
    matchAt (ip ++ '.' :: (fp ++ ' ' :: u)) = ⟨ip, fp, u⟩ := by
  have hta := takeWhile_append_all ip ('.' :: (fp ++ ' ' :: u)) hip
    (fun c hc => by injection hc with h; subst h; decide)
  have htb := takeWhile_append_all fp (' ' :: u) hfp
    (fun c hc => by injection hc with h; subst h; decide)
  unfold matchAt
  rw [hta.1, hta.2]
  have hfrac : fracOf ('.' :: (fp ++ ' ' :: u)) = fp := by
    simp only [fracOf, if_pos rfl]
    exact htb.1
  have hunit : unitOf ('.' :: (fp ++ ' ' :: u)) = u := by
    unfold unitOf
    rw [show afterFrac ('.' :: (fp ++ ' ' :: u)) =
        List.dropWhile isDigitCh (fp ++ ' ' :: u) from by simp [afterFrac]]
    rw [htb.2, dropWhile_cons_pos u (by decide), dropWhile_space_unit u hu,
      takeWhile_all u hu]
  rw [hfrac, hunit]

theorem parseTimeChars_matched (cs : List Char) (m : TimeMatch) (mult : Nat)
    (hs : searchNum cs = some m)
    (hc : findConversion conversions (unitOrDefault m) = some mult) :
    parseTimeChars cs =
      (intOfFloat (floatMulNat (floatOfDec m.intPart m.fracPart) mult)).map pyClamp := by
  simp only [parseTimeChars, hs, hc]

theorem parseTimeChars_unmatchedUnit (cs : List Char) (m : TimeMatch)
    (hs : searchNum cs = some m)
    (hc : findConversion conversions (unitOrDefault m) = none) :
    parseTimeChars cs = intOfFloat (floatOfDec m.intPart m.fracPart) := by
  simp only [parseTimeChars, hs, hc]

theorem parseTimeChars_noMatch (cs : List Char)
    (hs : searchNum cs = none) (hf : findallFirst cs = none) :
    parseTimeChars cs = some 100 := by
  simp only [parseTimeChars, hs, hf]

theorem getLast?_append_ne {α : Type} : ∀ (a b : List α), b ≠ [] →
    (a ++ b).getLast? = b.getLast?
  | [], _, _ => rfl
  | c :: a, b, hb => by
    have hab : a ++ b ≠ [] := fun h => hb (List.append_eq_nil.mp h).2
    obtain ⟨d, t, hdt⟩ := List.exists_cons_of_ne_nil hab
    rw [List.cons_append, hdt, List.getLast?_cons_cons, ← hdt]
    exact getLast?_append_ne a b hb

theorem mem_of_getLast?_eq {α : Type} : ∀ {l : List α} {a : α},
    l.getLast? = some a → a ∈ l
  | [], _, h => by cases h
  | [c], a, h => by
    have : c = a := Option.some.inj h
    subst this
    exact List.mem_cons_self _ _
  | _ :: d :: t, a, h => by
    rw [List.getLast?_cons_cons] at h
    exact List.mem_cons_of_mem _ (mem_of_getLast?_eq h)

/-- Normalisation (`lower` then `strip`) is the identity on inputs of
the shape `digits ++ separator ++ letters` used below. -/
theorem normalize_numUnit (ip mid u : List Char)
    (hipne : ip ≠ []) (hip : ∀ c ∈ ip, isDigitCh c = true)
    (hune : u ≠ []) (hu : ∀ c ∈ u, isLowerAZ c = true)
    (hmid : ∀ c ∈ mid, pyLowerChar c = c) :
    pyStrip (pyLower (ip ++ (mid ++ u))) = ip ++ (mid ++ u) := by
  apply normalize_eq_self
  · intro c hc
    rcases List.mem_append.mp hc with hc | hc
    · exact digit_lower_self (hip c hc)
    · rcases List.mem_append.mp hc with hc | hc
      · exact hmid c hc
      · exact lower_lower_self (hu c hc)
  · intro c hc
    obtain ⟨d, t, rfl⟩ := List.exists_cons_of_ne_nil hipne
    rw [List.cons_append, List.head?_cons] at hc
    cases Option.some.inj hc
    exact digit_not_space (hip _ (List.mem_cons_self _ _))
  · intro c hc
    rw [getLast?_append_ne _ _ (fun h => hune (List.append_eq_nil.mp h).2),
      getLast?_append_ne _ _ hune] at hc
    exact lower_not_space (hu c (mem_of_getLast?_eq hc))

theorem isEmpty_false_of_ne_nil {α : Type} {l : List α} (h : l ≠ []) :
    l.isEmpty = false := by
  cases l with
  | nil => exact absurd rfl h
  | cons _ _ => rfl

theorem parseTime_matched_noFrac (ip u : List Char) (mult : Nat)
    (hipne : ip ≠ []) (hip : ∀ c ∈ ip, isDigitCh c = true)
    (hune : u ≠ []) (hu : ∀ c ∈ u, isLowerAZ c = true)
    (hconv : findConversion conversions u = some mult) :
    parseTimeInput (String.mk (ip ++ ' ' :: u)) =
      (intOfFloat (floatMulNat (floatOfDec ip []) mult)).map pyClamp := by
  unfold parseTimeInput
  have htl : (String.mk (ip ++ ' ' :: u)).toList = ip ++ ' ' :: u := rfl
  rw [htl]
  rw [show ip ++ ' ' :: u = ip ++ ([' '] ++ u) from by simp]
  rw [normalize_numUnit ip [' '] u hipne hip hune hu
    (by intro c hc; simp at hc; subst hc; decide)]
  obtain ⟨d, t, rfl⟩ := List.exists_cons_of_ne_nil hipne
  have hsearch : searchNum ((d :: t) ++ ([' '] ++ u)) = some ⟨d :: t, [], u⟩ := by
    rw [List.cons_append, searchNum_eq_matchAt d _ (hip d (List.mem_cons_self _ _)),
      ← List.cons_append]
    rw [show (d :: t) ++ ([' '] ++ u) = (d :: t) ++ ' ' :: u from by simp]
    rw [matchAt_noFrac (d :: t) u hip hu]
  have hud : unitOrDefault ⟨d :: t, [], u⟩ = u := by
    unfold unitOrDefault
    simp only [isEmpty_false_of_ne_nil hune, Bool.false_eq_true, if_false]
  rw [parseTimeChars_matched _ _ mult hsearch (by rw [hud]; exact hconv)]

theorem parseTime_matched_frac (ip fp u : List Char) (mult : Nat)
    (hipne : ip ≠ []) (hip : ∀ c ∈ ip, isDigitCh c = true)
    (hfp : ∀ c ∈ fp, isDigitCh c = true)
    (hune : u ≠ []) (hu : ∀ c ∈ u, isLowerAZ c = true)
    (hconv : findConversion conversions u = some mult) :
    parseTimeInput (String.mk (ip ++ '.' :: (fp ++ ' ' :: u))) =
      (intOfFloat (floatMulNat (floatOfDec ip fp) mult)).map pyClamp := by
  unfold parseTimeInput
  have htl : (String.mk (ip ++ '.' :: (fp ++ ' ' :: u))).toList =
      ip ++ '.' :: (fp ++ ' ' :: u) := rfl
  rw [htl]
  rw [show ip ++ '.' :: (fp ++ ' ' :: u) = ip ++ (('.' :: fp ++ [' ']) ++ u) from by simp]
  rw [normalize_numUnit ip ('.' :: fp ++ [' ']) u hipne hip hune hu (by
    intro c hc
    rcases List.mem_append.mp hc with hc | hc
    · rcases List.mem_cons.mp hc with rfl | hc
      · decide
      · exact digit_lower_self (hfp c hc)
    · simp at hc; subst hc; decide)]
  rw [show ip ++ (('.' :: fp ++ [' ']) ++ u) = ip ++ '.' :: (fp ++ ' ' :: u) from by simp]
  obtain ⟨d, t, rfl⟩ := List.exists_cons_of_ne_nil hipne
  have hsearch : searchNum ((d :: t) ++ '.' :: (fp ++ ' ' :: u)) =
      some ⟨d :: t, fp, u⟩ := by
    rw [List.cons_append, searchNum_eq_matchAt d _ (hip d (List.mem_cons_self _ _)),
      ← List.cons_append]
    rw [matchAt_frac (d :: t) fp u hip hfp hu]
  have hud : unitOrDefault ⟨d :: t, fp, u⟩ = u := by
    unfold unitOrDefault
    simp only [isEmpty_false_of_ne_nil hune, Bool.false_eq_true, if_false]
  rw [parseTimeChars_matched _ _ mult hsearch (by rw [hud]; exact hconv)]

theorem findConversion_eq_find? : ∀ (l : List (List Char × Nat)) (u : List Char),
    findConversion l u =
      (l.find? fun km => km.1.isPrefixOf u || u.isPrefixOf km.1).map Prod.snd
  | [], _ => rfl
  | (k, mult) :: rest, u => by
    by_cases h : (k.isPrefixOf u || u.isPrefixOf k) = true
    · rw [findConversion, if_pos h,
        @List.find?_cons_of_pos _ (fun km => km.1.isPrefixOf u || u.isPrefixOf km.1)
          (k, mult) rest h]
      rfl
    · rw [findConversion, if_neg h,
        @List.find?_cons_of_neg _ (fun km => km.1.isPrefixOf u || u.isPrefixOf km.1)
          (k, mult) rest h]
      exact findConversion_eq_find? rest u

/-! ### Claims about `_parse_time_input` -/

/-- C1 (counterexample): the claim `parse("7") = 7` is false on the
code: the numeric pattern does match `"7"`, so the raw-digit fallback
is not taken and the result is clamped to 10. -/
theorem parseTime_seven_cex : parseTimeInput "7" ≠ some 7 := by decide

/-- C1 (amended): for the input string `"7"` the numeric pattern
matches with an empty unit token, the unit defaults to `"hours"`
(multiplier 1), and the table-matched path clamps the raw value 7 up
to the lower bound, so `parse("7") = 10`; the raw-digit unclamped
fallback path is not taken. -/
theorem parseTime_seven :
    searchNum (pyStrip (pyLower ("7" : String).toList)) = some ⟨['7'], [], []⟩ ∧
    unitOrDefault ⟨['7'], [], []⟩ = hoursToken ∧
    findConversion conversions hoursToken = some 1 ∧
    parseTimeInput "7" = some 10 := by decide

/-- C2: the `int(numbers[0])` branch is unreachable: the pattern
`(\d+\.?\d*)\s*([a-z]*)` fails only when the normalised input has no
digit at all, in which case `re.findall(r'\d+', ...)` finds nothing
and the branch returns the default 100. -/
theorem rawDigitBranch_unreachable (s : String)
    (h : searchNum (pyStrip (pyLower s.toList)) = none) :
    findallFirst (pyStrip (pyLower s.toList)) = none ∧ parseTimeInput s = some 100 := by
  have hnd := noDigit_of_searchNum_none _ h
  have hfa := findallFirst_none _ hnd
  exact ⟨hfa, parseTimeChars_noMatch _ h hfa⟩

theorem rawDigitBranch_unreachable_wit :
    findallFirst (pyStrip (pyLower ("xyz" : String).toList)) = none ∧
    parseTimeInput "xyz" = some 100 :=
  rawDigitBranch_unreachable "xyz" (by decide)

/-- C3 (counterexample): the claimed truncation toward zero of the
exact product is false on the code, which computes in binary64:
`float("10.999999999999999999")` rounds up to `11.0` (the literal is
within half an ulp of 11), so `parse` returns 11 where the exact rule
truncates to 10 and clamps to 10. -/
theorem parseTime_conversions_cex :
    parseTimeInput "10.999999999999999999 hours" = some 11 ∧
    specTruncMul "10".toList "999999999999999999".toList 1 = 10 ∧
    pyClamp 10 = 10 := by decide

/-- C3 (amended): on inputs `"<number> <unit>"` whose unit resolves in
the conversion table, the result is `int(float(number) * multiplier)`
— the number converted to the nearest binary64 double, times the
multiplier with the product correctly rounded, truncated toward zero —
then clamped to [10, 2000]; because the conversion rounds, this can
differ from exact truncation of the decimal product.  The five integer
examples and the decimal example `"2.5 weeks"` hold as claimed (their
values and products are exactly representable). -/
theorem parseTime_table_conversions :
    (∀ (ip u : List Char) (mult : Nat), ip ≠ [] → (∀ c ∈ ip, isDigitCh c = true) →
      u ≠ [] → (∀ c ∈ u, isLowerAZ c = true) →
      findConversion conversions u = some mult →
      parseTimeInput (String.mk (ip ++ ' ' :: u)) =
        (intOfFloat (floatMulNat (floatOfDec ip []) mult)).map pyClamp) ∧
    (∀ (ip fp u : List Char) (mult : Nat), ip ≠ [] → (∀ c ∈ ip, isDigitCh c = true) →
      (∀ c ∈ fp, isDigitCh c = true) → u ≠ [] → (∀ c ∈ u, isLowerAZ c = true) →
      findConversion conversions u = some mult →
      parseTimeInput (String.mk (ip ++ '.' :: (fp ++ ' ' :: u))) =
        (intOfFloat (floatMulNat (floatOfDec ip fp) mult)).map pyClamp) ∧
    parseTimeInput "100 hours" = some 100 ∧ parseTimeInput "2 months" = some 320 ∧
    parseTimeInput "10 weeks" = some 400 ∧ parseTimeInput "30 days" = some 240 ∧
    parseTimeInput "1 year" = some 1920 ∧ parseTimeInput "2.5 weeks" = some 100 :=
  ⟨parseTime_matched_noFrac, parseTime_matched_frac, by decide, by decide,
    by decide, by decide, by decide, by decide⟩

theorem parseTime_table_conversions_wit :
    parseTimeInput (String.mk ("30".toList ++ ' ' :: "days".toList)) =
      (intOfFloat (floatMulNat (floatOfDec "30".toList []) 8)).map pyClamp ∧
    parseTimeInput (String.mk ("2".toList ++ '.' :: ("5".toList ++ ' ' :: "weeks".toList))) =
      (intOfFloat (floatMulNat (floatOfDec "2".toList "5".toList) 40)).map pyClamp :=
  ⟨parseTime_table_conversions.1 "30".toList "days".toList 8 (by decide) (by decide)
      (by decide) (by decide) (by decide),
    parseTime_table_conversions.2.1 "2".toList "5".toList "weeks".toList 40 (by decide)
      (by decide) (by decide) (by decide) (by decide) (by decide)⟩

/-- C4 (counterexample): a table-matched input on which `parse` does
not return a clamped result but raises: a 310-digit number with unit
`hours` matches the pattern and the unit resolves (multiplier 1), but
`float()` of the number overflows to infinity and `int(inf * 1)`
raises an uncaught `OverflowError` (modelled as `none`). -/
theorem parseTime_clamped_cex :
    searchNum (pyStrip (pyLower
        (String.mk ('1' :: (List.replicate 309 '0' ++ " hours".toList))).toList)) =
      some ⟨'1' :: List.replicate 309 '0', [], "hours".toList⟩ ∧
    findConversion conversions "hours".toList = some 1 ∧
    parseTimeInput (String.mk ('1' :: (List.replicate 309 '0' ++ " hours".toList))) =
      none := by decide

/-- C4 (amended): on the table-matched path, whenever `int()` of the
binary64 product succeeds (the product is finite), the result is
clamped into [10, 2000]; `parse("1 hour") = 10` and
`parse("5000 hours") = 2000`.  Table-matched inputs whose number
overflows the double range (about 309 digits and more) instead raise
an uncaught `OverflowError`, so not every table-matched input yields
a result. -/
theorem parseTime_table_clamped :
    parseTimeInput "1 hour" = some 10 ∧ parseTimeInput "5000 hours" = some 2000 ∧
    (∀ (s : String) (m : TimeMatch) (mult : Nat) (r : Int),
      searchNum (pyStrip (pyLower s.toList)) = some m →
      findConversion conversions (unitOrDefault m) = some mult →
      intOfFloat (floatMulNat (floatOfDec m.intPart m.fracPart) mult) = some r →
      parseTimeInput s = some (pyClamp r) ∧ 10 ≤ pyClamp r ∧ pyClamp r ≤ 2000) := by
  refine ⟨by decide, by decide, ?_⟩
  intro s m mult r hm hconv hr
  unfold parseTimeInput
  rw [parseTimeChars_matched _ _ mult hm hconv, hr]
  refine ⟨rfl, ?_, ?_⟩ <;> unfold pyClamp <;> omega

theorem parseTime_table_clamped_wit :
    parseTimeInput "5000 hours" = some (pyClamp 5000) ∧
    10 ≤ pyClamp 5000 ∧ pyClamp 5000 ≤ 2000 :=
  parseTime_table_clamped.2.2 "5000 hours" ⟨"5000".toList, [], "hours".toList⟩ 1 5000
    (by decide) (by decide) (by decide)

/-- C5: unit resolution is a first-match scan of the conversion table
in its fixed declared order, accepting an entry when its key is a
prefix of the unit token or vice versa; the table is exactly the one
in the source, and the single-letter token `"m"` resolves to the
month multiplier 160 (shown end to end on `"3 m"`). -/
theorem findConversion_bidirectional :
    conversions =
      [ ("hour".toList, 1), ("hours".toList, 1), ("hr".toList, 1), ("hrs".toList, 1),
        ("h".toList, 1),
        ("day".toList, 8), ("days".toList, 8), ("d".toList, 8),
        ("week".toList, 40), ("weeks".toList, 40), ("wk".toList, 40), ("w".toList, 40),
        ("month".toList, 160), ("months".toList, 160), ("mo".toList, 160),
        ("m".toList, 160),
        ("year".toList, 1920), ("years".toList, 1920), ("yr".toList, 1920),
        ("y".toList, 1920) ] ∧
    (∀ u : List Char, findConversion conversions u =
      (conversions.find? fun km => km.1.isPrefixOf u || u.isPrefixOf km.1).map
        Prod.snd) ∧
    findConversion conversions ("m".toList) = some 160 ∧
    parseTimeInput "3 m" = some 480 :=
  ⟨rfl, findConversion_eq_find? conversions, by decide, by decide⟩

/-- C6 (counterexample): on the unrecognized-unit path the code
returns `int(float(number))`, not the number truncated exactly:
`float("9007199254740993")` (2^53 + 1, halfway between two doubles)
rounds to even, so `parse("9007199254740993 fortnight")` returns
9007199254740992, not the literal value. -/
theorem parseTime_unrecognized_cex :
    parseTimeInput "9007199254740993 fortnight" = some 9007199254740992 ∧
    specTruncMul "9007199254740993".toList [] 1 = 9007199254740993 := by decide

/-- C6 (amended): when a number is matched but the unit token (after
defaulting) matches no table entry, the result is `int(float(number))`
— the number rounded to the nearest binary64 double, truncated toward
zero — with no clamping (e.g. `parse("5 fortnights") = 5`, below the
lower clamp bound 10); numbers of 17 and more significant digits can
round, and numbers overflowing the double range raise an uncaught
`OverflowError`. -/
theorem parseTime_unrecognized_unclamped :
    (∀ (s : String) (m : TimeMatch),
      searchNum (pyStrip (pyLower s.toList)) = some m →
      findConversion conversions (unitOrDefault m) = none →
      parseTimeInput s = intOfFloat (floatOfDec m.intPart m.fracPart)) ∧
    parseTimeInput "5 fortnights" = some 5 ∧
    intOfFloat (floatOfDec ['5'] []) = some 5 ∧ pyClamp 5 = 10 := by
  refine ⟨?_, by decide, by decide, by decide⟩
  intro s m hm hconv
  exact parseTimeChars_unmatchedUnit _ _ hm hconv

theorem parseTime_unrecognized_unclamped_wit :
    parseTimeInput "5 fortnights" =
      intOfFloat (floatOfDec (⟨['5'], [], "fortnights".toList⟩ : TimeMatch).intPart
        (⟨['5'], [], "fortnights".toList⟩ : TimeMatch).fracPart) :=
  parseTime_unrecognized_unclamped.1 "5 fortnights" ⟨['5'], [], "fortnights".toList⟩
    (by decide) (by decide)

/-- C7: an input with no digits at all (the empty string and
whitespace-only strings included) returns the fixed default 100. -/
theorem parseTime_noDigits_default :
    (∀ s : String, (∀ c ∈ s.toList, isDigitCh c = false) → parseTimeInput s = some 100) ∧
    parseTimeInput "" = some 100 ∧ parseTimeInput "abc" = some 100 ∧
    parseTimeInput "   " = some 100 := by
  refine ⟨?_, by decide, by decide, by decide⟩
  intro s hs
  have h1 : ∀ c ∈ pyLower s.toList, isDigitCh c = false := noDigit_pyLower _ hs
  have h2 : ∀ c ∈ pyStrip (pyLower s.toList), isDigitCh c = false :=
    fun c hc => h1 c (mem_pyStrip hc)
  exact parseTimeChars_noMatch _ (searchNum_none_of_noDigit _ h2)
    (findallFirst_none _ h2)

theorem parseTime_noDigits_default_wit : parseTimeInput "abc" = some 100 :=
  parseTime_noDigits_default.1 "abc" (by decide)

/-! ### Claims about `_parse_json_safely`: examples and fallback -/

/-- C8: extraction recovers the JSON object from code-fenced output
(the candidate is the text strictly between the first three-backtick
json marker and the next fence, stripped) and from
commentary-wrapped output (the slice from the first opening brace to
the last closing brace, inclusive). -/
theorem extractJson_examples :
    extractCandidate (("```json\n\x7b\"a\": 1\x7d\n```" : String).toList) =
      "\x7b\"a\": 1\x7d".toList ∧
    parseJsonSafely "```json\n\x7b\"a\": 1\x7d\n```" (some (.obj .nil)) =
      .obj (.cons "a" (.num 1) .nil) ∧
    extractCandidate (("Here is your result: \x7b\"a\": 1\x7d — enjoy!" : String).toList) =
      "\x7b\"a\": 1\x7d".toList ∧
    parseJsonSafely "Here is your result: \x7b\"a\": 1\x7d — enjoy!" (some (.obj .nil)) =
      .obj (.cons "a" (.num 1) .nil) := by decide

/-- C9 (amended): on any failure of `json.loads` on the extracted
candidate, extract returns the caller-supplied (dict) fallback
unchanged, and a successfully parsed candidate — floats included — is
returned even when it is the empty object:
`extract('<lbrace><rbrace>', fb)` is the empty dict, not the
fallback.  Extract never raises `JSONDecodeError`/`ValueError`, but
it is not total: nesting past the interpreter recursion limit raises
an uncaught `RecursionError` (the counterexample). -/
theorem extractJson_fallback :
    (∀ (s : String) (m : JsonObj),
      jsonLoadsChars (extractCandidate s.toList) = none →
      parseJsonSafely s (some (.obj m)) = .obj m) ∧
    parseJsonSafely "not json at all" (some (.obj (.cons "fallback" (.bool true) .nil))) =
      .obj (.cons "fallback" (.bool true) .nil) ∧
    parseJsonSafely "\x7b\x7d" (some (.obj (.cons "fallback" (.bool true) .nil))) =
      .obj .nil ∧
    parseJsonSafely "\x7b\"a\": 1.5\x7d" (some (.obj (.cons "fallback" (.bool true) .nil))) =
      .obj (.cons "a" (.flt (.finite false 6755399441055744 (-52))) .nil) := by
  refine ⟨?_, by decide, by decide, by decide⟩
  intro s m h
  unfold parseJsonSafely
  rw [h]
  cases m with
  | nil => rfl
  | cons k v t => rfl

theorem extractJson_fallback_wit :
    parseJsonSafely "%% no json here %%" (some (.obj (.cons "k" (.num 3) .nil))) =
      .obj (.cons "k" (.num 3) .nil) :=
  extractJson_fallback.1 "%% no json here %%" (.cons "k" (.num 3) .nil) (by decide)

/-! ### Round trip: string bodies -/

theorem skipWs_cons_neg {c : Char} (l : List Char) (h : isJsonWs c = false) :
    skipWs (c :: l) = c :: l := dropWhile_cons_neg l h

theorem skipWs_cons_pos {c : Char} (l : List Char) (h : isJsonWs c = true) :
    skipWs (c :: l) = skipWs l := dropWhile_cons_pos l h

theorem hexDigit_hexVal : ∀ n : Fin 16, hexVal (hexDigit n.val) = some n.val := by decide

theorem parseStrBodyAux_u (f n : Nat) (hn : n < 32) (X s rest : List Char)
    (ih : parseStrBodyAux f X = some (s, rest)) :
    parseStrBodyAux (f + 1) (backslashChar :: 'u' :: '0' :: '0' ::
      hexDigit (n / 16) :: hexDigit (n % 16) :: X) = some (Char.ofNat n :: s, rest) := by
  have hh1 : hexVal (hexDigit (n / 16)) = some (n / 16) := by
    simpa using hexDigit_hexVal ⟨n / 16, by omega⟩
  have hh2 : hexVal (hexDigit (n % 16)) = some (n % 16) := by
    simpa using hexDigit_hexVal ⟨n % 16, by omega⟩
  simp [parseStrBodyAux, hh1, hh2, ih,
    show hexVal '0' = some 0 from by decide,
    show ¬ backslashChar = quoteChar from by decide,
    show ((0 * 16 + 0) * 16 + n / 16) * 16 + n % 16 = n from by omega,
    show n / 16 * 16 + n % 16 = n from by omega,
    show n < 55296 from by omega]

theorem parseStrBodyAux_esc (f : Nat) (c : Char) (X s rest : List Char)
    (ih : parseStrBodyAux f X = some (s, rest)) :
    parseStrBodyAux (f + 1) (escCharDump c ++ X) = some (c :: s, rest) := by
  by_cases h1 : c = quoteChar
  · subst h1
    rw [show escCharDump quoteChar = [backslashChar, quoteChar] from rfl]
    simp [parseStrBodyAux, escCharParse, ih,
      show ¬ backslashChar = quoteChar from by decide,
      show ¬ quoteChar = 'u' from by decide]
  by_cases h2 : c = backslashChar
  · subst h2
    rw [show escCharDump backslashChar = [backslashChar, backslashChar] from by
      unfold escCharDump
      rw [if_neg (by decide), if_pos rfl]]
    simp [parseStrBodyAux, escCharParse, ih,
      show ¬ backslashChar = quoteChar from by decide,
      show ¬ backslashChar = 'u' from by decide]
  by_cases h3 : c = Char.ofNat 10
  · subst h3
    rw [show escCharDump (Char.ofNat 10) = [backslashChar, 'n'] from by decide]
    simp [parseStrBodyAux, escCharParse, ih,
      show ¬ backslashChar = quoteChar from by decide,
      show ¬ 'n' = quoteChar from by decide,
      show ¬ 'n' = backslashChar from by decide]
  by_cases h4 : c = Char.ofNat 13
  · subst h4
    rw [show escCharDump (Char.ofNat 13) = [backslashChar, 'r'] from by decide]
    simp [parseStrBodyAux, escCharParse, ih,
      show ¬ backslashChar = quoteChar from by decide,
      show ¬ 'r' = quoteChar from by decide,
      show ¬ 'r' = backslashChar from by decide]
  by_cases h5 : c = Char.ofNat 9
  · subst h5
    rw [show escCharDump (Char.ofNat 9) = [backslashChar, 't'] from by decide]
    simp [parseStrBodyAux, escCharParse, ih,
      show ¬ backslashChar = quoteChar from by decide,
      show ¬ 't' = quoteChar from by decide,
      show ¬ 't' = backslashChar from by decide]
  by_cases h6 : c = Char.ofNat 8
  · subst h6
    rw [show escCharDump (Char.ofNat 8) = [backslashChar, 'b'] from by decide]
    simp [parseStrBodyAux, escCharParse, ih,
      show ¬ backslashChar = quoteChar from by decide,
      show ¬ 'b' = quoteChar from by decide,
      show ¬ 'b' = backslashChar from by decide]
  by_cases h7 : c = Char.ofNat 12
  · subst h7
    rw [show escCharDump (Char.ofNat 12) = [backslashChar, 'f'] from by decide]
    simp [parseStrBodyAux, escCharParse, ih,
      show ¬ backslashChar = quoteChar from by decide,
      show ¬ 'f' = quoteChar from by decide,
      show ¬ 'f' = backslashChar from by decide]
  by_cases h8 : c.toNat < 32
  · have hdump : escCharDump c = backslashChar :: 'u' :: '0' :: '0' ::
        hexDigit (c.toNat / 16) :: hexDigit (c.toNat % 16) :: [] := by
      unfold escCharDump
      rw [if_neg h1, if_neg h2, if_neg h3, if_neg h4, if_neg h5, if_neg h6, if_neg h7,
        if_pos h8]
    rw [hdump]
    have := parseStrBodyAux_u f c.toNat h8 X s rest ih
    rw [Char.ofNat_toNat] at this
    exact this
  · have hdump : escCharDump c = [c] := by
      unfold escCharDump
      rw [if_neg h1, if_neg h2, if_neg h3, if_neg h4, if_neg h5, if_neg h6, if_neg h7,
        if_neg h8]
    rw [hdump]
    simp [parseStrBodyAux, h1, h2, h8, ih]

theorem escCharDump_ne_nil (c : Char) : escCharDump c ≠ [] := by
  unfold escCharDump
  repeat' split
  all_goals simp

theorem dumpStrBody_length : ∀ s : List Char, s.length ≤ (dumpStrBody s).length
  | [] => Nat.le_refl 0
  | c :: t => by
    rw [show dumpStrBody (c :: t) = escCharDump c ++ dumpStrBody t from rfl]
    have h1 : 1 ≤ (escCharDump c).length :=
      List.length_pos.mpr (escCharDump_ne_nil c)
    have h2 := dumpStrBody_length t
    simp only [List.length_append, List.length_cons]
    omega

theorem parseStrBodyAux_dump : ∀ (s : List Char) (f : Nat) (rest : List Char),
    s.length < f →
    parseStrBodyAux f (dumpStrBody s ++ quoteChar :: rest) = some (s, rest)
  | [], f, rest, h => by
    match f, h with
    | f + 1, _ =>
      show parseStrBodyAux (f + 1) (quoteChar :: rest) = some ([], rest)
      simp [parseStrBodyAux]
  | c :: t, f, rest, h => by
    match f, h with
    | f + 1, h =>
      rw [show dumpStrBody (c :: t) = escCharDump c ++ dumpStrBody t from rfl,
        List.append_assoc]
      exact parseStrBodyAux_esc f c _ t rest
        (parseStrBodyAux_dump t f rest (by simp at h; omega))

theorem parseStrBody_dump (s rest : List Char) :
    parseStrBody (dumpStrBody s ++ quoteChar :: rest) = some (s, rest) := by
  unfold parseStrBody
  apply parseStrBodyAux_dump
  have := dumpStrBody_length s
  simp only [List.length_append, List.length_cons]
  omega

/-! ### Round trip: numbers -/

theorem numBoundary_comma (l : List Char) : numBoundary (',' :: l) :=
  ⟨by decide, by decide, by decide, by decide⟩

theorem numBoundary_rbracket (l : List Char) : numBoundary (']' :: l) :=
  ⟨by decide, by decide, by decide, by decide⟩

theorem numBoundary_rbrace (l : List Char) : numBoundary (rbraceChar :: l) :=
  ⟨by decide, by decide, by decide, by decide⟩

theorem numBoundary_head_not_digit (rest : List Char) (h : numBoundary rest) :
    ∀ c, rest.head? = some c → isDigitCh c = false := by
  intro c hc
  cases rest with
  | nil => cases hc
  | cons r t =>
    cases Option.some.inj hc
    exact h.1

theorem natToChars_no_leading_zero (m : Nat) :
    (1 < (natToChars m).length && decide ((natToChars m).head? = some '0')) = false := by
  by_cases h : m < 10
  · have h1 : natToChars m = [digitChar m] := by simp [natToChars, natToCharsAux, h]
    rw [h1]
    simp
  · obtain ⟨d, t, hdt⟩ := List.exists_cons_of_ne_nil (natToChars_ne_nil m)
    have hhead := natToChars_head_zero m d (by rw [hdt]; rfl)
    have hd0 : ¬ d = '0' := fun he => by have := hhead he; omega
    rw [hdt]
    simp [hd0]

theorem parseFracOpt_boundary (rest : List Char) (hrest : numBoundary rest) :
    parseFracOpt rest = ([], rest) := by
  cases rest with
  | nil => rfl
  | cons r t =>
    simp only [parseFracOpt]
    rw [if_neg hrest.2.1]

theorem parseExpOpt_boundary (rest : List Char) (hrest : numBoundary rest) :
    parseExpOpt rest = (none, rest) := by
  cases rest with
  | nil => rfl
  | cons r t =>
    simp only [parseExpOpt]
    rw [if_neg (by simp [hrest.2.2.1, hrest.2.2.2])]

theorem parseNumCore_spec (sign : Bool) (D rest : List Char)
    (hD : D ≠ []) (hdig : ∀ c ∈ D, isDigitCh c = true)
    (hlz : (decide (1 < D.length) && decide (D.head? = some '0')) = false)
    (hrest : numBoundary rest) :
    parseNumCore sign (D ++ rest) =
      some (.num (if sign then -(natOfDigits D : Int) else (natOfDigits D : Int)),
        rest) := by
  obtain ⟨d, t, rfl⟩ := List.exists_cons_of_ne_nil hD
  have hd := hdig d (List.mem_cons_self _ _)
  have hta := takeWhile_append_all (d :: t) rest hdig
    (numBoundary_head_not_digit rest hrest)
  have ht1 : List.takeWhile isDigitCh (d :: (t ++ rest)) = d :: t := by
    rw [← List.cons_append]; exact hta.1
  have ht2 : List.dropWhile isDigitCh (d :: (t ++ rest)) = rest := by
    rw [← List.cons_append]; exact hta.2
  rw [List.cons_append]
  simp only [parseNumCore]
  rw [if_pos hd, ht1, ht2, if_neg (by rw [hlz]; exact Bool.false_ne_true),
    parseFracOpt_boundary rest hrest, parseExpOpt_boundary rest hrest]
  rfl

theorem parseNum_intChars (n : Int) (rest : List Char) (hrest : numBoundary rest) :
    parseNum (intChars n ++ rest) = some (.num n, rest) := by
  by_cases hneg : n < 0
  · rw [show intChars n = '-' :: natToChars n.natAbs from by
      unfold intChars; rw [if_pos hneg]]
    rw [List.cons_append]
    simp only [parseNum]
    rw [if_pos trivial]
    rw [parseNumCore_spec true _ rest (natToChars_ne_nil _) (natToChars_digits _)
      (natToChars_no_leading_zero _) hrest]
    have hval : -((natOfDigits (natToChars n.natAbs) : Int)) = n := by
      rw [natToChars_val]; omega
    simp [hval]
  · rw [show intChars n = natToChars n.toNat from by
      unfold intChars; rw [if_neg hneg]]
    obtain ⟨d, t, hdt⟩ := List.exists_cons_of_ne_nil (natToChars_ne_nil n.toNat)
    have hd := natToChars_digits n.toNat d (by rw [hdt]; exact List.mem_cons_self _ _)
    have hdne : ¬ d = '-' := ne_of_pred hd (by decide)
    rw [hdt, List.cons_append]
    simp only [parseNum]
    rw [if_neg hdne, ← List.cons_append, ← hdt]
    rw [parseNumCore_spec false _ rest (natToChars_ne_nil _) (natToChars_digits _)
      (natToChars_no_leading_zero _) hrest]
    have hval : ((natOfDigits (natToChars n.toNat) : Int)) = n := by
      rw [natToChars_val]; omega
    simp [hval]

/-! ### Objects as Python dicts -/

theorem hasKey_cons_false {k2 : String} {v2 : Json} {t : JsonObj} {key : String}
    (h : JsonObj.hasKey (.cons k2 v2 t) key = false) :
    (k2 == key) = false ∧ JsonObj.hasKey t key = false := by
  unfold JsonObj.hasKey at h
  exact ⟨by cases hb : (k2 == key) <;> simp [hb] at h ⊢, by
    cases hb : (k2 == key) <;> simp [hb] at h <;> simp [h]⟩

theorem pyDictInsert_fresh : ∀ (acc : JsonObj) (k : String) (v : Json),
    JsonObj.hasKey acc k = false →
    pyDictInsert acc k v = objAppend acc (.cons k v .nil)
  | .nil, k, v, _ => rfl
  | .cons k2 v2 t, k, v, h => by
    obtain ⟨h1, h2⟩ := hasKey_cons_false h
    simp only [pyDictInsert, h1, Bool.false_eq_true, if_false, objAppend]
    rw [pyDictInsert_fresh t k v h2]

theorem objAppend_assoc : ∀ (a b c : JsonObj),
    objAppend (objAppend a b) c = objAppend a (objAppend b c)
  | .nil, _, _ => rfl
  | .cons k v t, b, c => by
    simp only [objAppend]
    rw [objAppend_assoc t b c]

theorem hasKey_append : ∀ (a b : JsonObj) (k : String),
    JsonObj.hasKey (objAppend a b) k = (JsonObj.hasKey a k || JsonObj.hasKey b k)
  | .nil, b, k => by simp [objAppend, JsonObj.hasKey]
  | .cons k2 v2 t, b, k => by
    simp only [objAppend, JsonObj.hasKey]
    rw [hasKey_append t b k, Bool.or_assoc]

theorem allFresh_nil_acc : ∀ m : JsonObj, allFresh .nil m = true
  | .nil => rfl
  | .cons k v t => by simp [allFresh, JsonObj.hasKey, allFresh_nil_acc t]

theorem allFresh_cons {acc : JsonObj} {k : String} {v : Json} {t : JsonObj}
    (h : allFresh acc (.cons k v t) = true) :
    JsonObj.hasKey acc k = false ∧ allFresh acc t = true := by
  unfold allFresh at h
  exact ⟨by cases hb : JsonObj.hasKey acc k <;> simp [hb] at h ⊢, by
    cases hb : JsonObj.hasKey acc k <;> simp [hb] at h <;> simp [h]⟩

theorem wfObj_cons {k : String} {v : Json} {t : JsonObj}
    (h : wfObj (.cons k v t) = true) :
    JsonObj.hasKey t k = false ∧ wfVal v = true ∧ wfObj t = true := by
  unfold wfObj at h
  refine ⟨?_, ?_, ?_⟩
  · cases hb : JsonObj.hasKey t k <;> simp [hb] at h ⊢
  · cases hb : wfVal v <;> simp [hb] at h ⊢ <;> cases hc : JsonObj.hasKey t k <;>
      simp [hc] at h
  · cases hb : wfObj t <;> simp [hb] at h ⊢ <;> cases hc : JsonObj.hasKey t k <;>
      simp [hc] at h

theorem allFresh_snocAcc : ∀ (acc : JsonObj) (k : String) (v : Json) (t : JsonObj),
    allFresh acc t = true → JsonObj.hasKey t k = false →
    allFresh (objAppend acc (.cons k v .nil)) t = true
  | _, _, _, .nil, _, _ => rfl
  | acc, k, v, .cons k2 v2 t2, h1, h2 => by
    obtain ⟨ha, hb⟩ := allFresh_cons h1
    obtain ⟨hc, hd⟩ := hasKey_cons_false h2
    have hkk : (k == k2) = false := by
      rw [beq_eq_false_iff_ne] at hc ⊢
      exact fun he => hc he.symm
    simp only [allFresh, hasKey_append, ha, JsonObj.hasKey, hkk, Bool.or_self,
      Bool.or_false, Bool.false_or, Bool.not_false, Bool.true_and]
    exact allFresh_snocAcc acc k v t2 hb hd

/-! ### Heads of serialised values -/

theorem digit_not_jsonWs {c : Char} (h : isDigitCh c = true) : isJsonWs c = false := by
  rw [Bool.eq_false_iff]
  intro hw
  rw [isDigitCh_iff] at h
  simp [isJsonWs] at hw
  omega

theorem isPrefixOf_cons_false {p : Char} (pt : List Char) {c : Char} (ct : List Char)
    (h : ¬ p = c) : (p :: pt).isPrefixOf (c :: ct) = false := by
  rw [show (p :: pt).isPrefixOf (c :: ct) = ((p == c) && pt.isPrefixOf ct) from rfl,
    beq_eq_false_iff_ne.mpr h]
  rfl

theorem dumpVal_head (v : Json) : ∃ c cs, dumpVal v = c :: cs ∧ isJsonWs c = false ∧
    ¬ c = ']' ∧ ¬ c = rbraceChar := by
  cases v with
  | null => exact ⟨'n', _, rfl, by decide, by decide, by decide⟩
  | flt g =>
    cases g with
    | finite s m e =>
      exact ⟨'?', _, rfl, by decide, by decide, by decide⟩
    | inf s =>
      cases s with
      | false => exact ⟨'I', _, rfl, by decide, by decide, by decide⟩
      | true => exact ⟨'-', _, rfl, by decide, by decide, by decide⟩
    | nan => exact ⟨'N', _, rfl, by decide, by decide, by decide⟩
  | bool b =>
    cases b with
    | true => exact ⟨'t', ['r', 'u', 'e'], by decide, by decide, by decide, by decide⟩
    | false =>
      exact ⟨'f', ['a', 'l', 's', 'e'], by decide, by decide, by decide, by decide⟩
  | num n =>
    by_cases hneg : n < 0
    · refine ⟨'-', natToChars n.natAbs, ?_, by decide, by decide, by decide⟩
      show intChars n = _
      unfold intChars
      rw [if_pos hneg]
    · obtain ⟨d, t, hdt⟩ := List.exists_cons_of_ne_nil (natToChars_ne_nil n.toNat)
      have hd := natToChars_digits n.toNat d (by rw [hdt]; exact List.mem_cons_self _ _)
      refine ⟨d, t, ?_, digit_not_jsonWs hd, ne_of_pred hd (by decide),
        ne_of_pred hd (by decide)⟩
      show intChars n = _
      unfold intChars
      rw [if_neg hneg, hdt]
  | str s => exact ⟨quoteChar, _, rfl, by decide, by decide, by decide⟩
  | arr l => exact ⟨'[', _, rfl, by decide, by decide, by decide⟩
  | obj m => exact ⟨lbraceChar, _, rfl, by decide, by decide, by decide⟩

theorem wfArr_cons {w : Json} {t : JsonArr} (h : wfArr (.cons w t) = true) :
    wfVal w = true ∧ wfArr t = true := by
  unfold wfArr at h
  exact ⟨by cases hb : wfVal w <;> simp [hb] at h ⊢, by
    cases hb : wfVal w <;> simp [hb] at h <;> simp [h]⟩

theorem parseVal_cons_ws (f : Nat) (c : Char) (l : List Char) (h : isJsonWs c = true) :
    parseVal f (c :: l) = parseVal f l := by
  cases f with
  | zero => rfl
  | succ f =>
    simp only [parseVal]
    rw [skipWs_cons_pos l h]

theorem parseElemsRest_cons_ws (f : Nat) (c : Char) (l : List Char)
    (h : isJsonWs c = true) : parseElemsRest f (c :: l) = parseElemsRest f l := by
  cases f with
  | zero => rfl
  | succ f =>
    simp only [parseElemsRest]
    rw [parseVal_cons_ws f c l h]

theorem parseMembersRest_cons_ws (f : Nat) (c : Char) (l : List Char) (acc : JsonObj)
    (h : isJsonWs c = true) :
    parseMembersRest f (c :: l) acc = parseMembersRest f l acc := by
  cases f with
  | zero => rfl
  | succ f =>
    simp only [parseMembersRest]
    rw [skipWs_cons_pos l h]

/-! ### Round trip: values, arrays, objects -/

theorem dumpArrRest_cons (v : Json) (t : JsonArr) :
    dumpArrRest (.cons v t) = ',' :: ' ' :: dumpArr (.cons v t) := by
  simp [dumpArrRest, dumpArr]

theorem dumpObjRest_cons (k : String) (v : Json) (t : JsonObj) :
    dumpObjRest (.cons k v t) = ',' :: ' ' :: dumpObj (.cons k v t) := by
  simp [dumpObjRest, dumpObj]

theorem parseVal_lbracket (f : Nat) (l : List Char) (res : Option (Json × List Char))
    (h : parseElemsFirst f l = res) : parseVal (f + 1) ('[' :: l) = res := by
  simp [parseVal, skipWs_cons_neg l (by decide : isJsonWs '[' = false),
    show ¬ ('[' : Char) = lbraceChar from by decide, h]

theorem parseVal_lbrace (f : Nat) (l : List Char) (res : Option (Json × List Char))
    (h : parseMembersFirst f l = res) : parseVal (f + 1) (lbraceChar :: l) = res := by
  simp [parseVal, skipWs_cons_neg l (by decide : isJsonWs lbraceChar = false), h]

theorem parseElemsFirst_step (f : Nat) (c : Char) (l : List Char) (t : JsonArr)
    (r : List Char) (hws : isJsonWs c = false) (hnb : ¬ c = ']')
    (h : parseElemsRest f (c :: l) = some (t, r)) :
    parseElemsFirst (f + 1) (c :: l) = some (.arr t, r) := by
  simp [parseElemsFirst, skipWs_cons_neg l hws, hnb, h]

theorem parseMembersFirst_step (f : Nat) (c : Char) (l : List Char)
    (res : Option (Json × List Char)) (hws : isJsonWs c = false)
    (hnb : ¬ c = rbraceChar) (h : parseMembersRest f (c :: l) .nil = res) :
    parseMembersFirst (f + 1) (c :: l) = res := by
  simp [parseMembersFirst, skipWs_cons_neg l hws, hnb, h]

theorem parseVal_quote (f : Nat) (l s2 r : List Char)
    (h : parseStrBody l = some (s2, r)) :
    parseVal (f + 1) (quoteChar :: l) = some (.str (String.mk s2), r) := by
  simp [parseVal, skipWs_cons_neg l (by decide : isJsonWs quoteChar = false),
    show ¬ quoteChar = lbraceChar from by decide,
    show ¬ quoteChar = '[' from by decide, h]

mutual
theorem rtVal : ∀ (v : Json) (f : Nat) (rest : List Char), needVal v ≤ f →
    wfVal v = true → numBoundary rest →
    parseVal f (dumpVal v ++ rest) = some (v, rest)
  | .null, f, rest, hf, _, _ => by
    simp only [needVal] at hf
    obtain ⟨f1, rfl⟩ : ∃ f1, f = f1 + 1 := ⟨f - 1, by omega⟩
    show parseVal (f1 + 1) ('n' :: 'u' :: 'l' :: 'l' :: rest) = some (.null, rest)
    have hpre : (("ull".toList).isPrefixOf ('u' :: 'l' :: 'l' :: rest)) = true := by
      rw [List.isPrefixOf_iff_prefix]
      exact ⟨rest, rfl⟩
    simp [parseVal, skipWs_cons_neg _ (by decide : isJsonWs 'n' = false), hpre,
      show ¬ ('n' : Char) = lbraceChar from by decide,
      show ¬ ('n' : Char) = quoteChar from by decide]
  | .bool true, f, rest, hf, _, _ => by
    simp only [needVal] at hf
    obtain ⟨f1, rfl⟩ : ∃ f1, f = f1 + 1 := ⟨f - 1, by omega⟩
    show parseVal (f1 + 1) ('t' :: 'r' :: 'u' :: 'e' :: rest) = some (.bool true, rest)
    have hpre : (("rue".toList).isPrefixOf ('r' :: 'u' :: 'e' :: rest)) = true := by
      rw [List.isPrefixOf_iff_prefix]
      exact ⟨rest, rfl⟩
    simp [parseVal, skipWs_cons_neg _ (by decide : isJsonWs 't' = false), hpre,
      show ¬ ('t' : Char) = lbraceChar from by decide,
      show ¬ ('t' : Char) = quoteChar from by decide]
  | .bool false, f, rest, hf, _, _ => by
    simp only [needVal] at hf
    obtain ⟨f1, rfl⟩ : ∃ f1, f = f1 + 1 := ⟨f - 1, by omega⟩
    show parseVal (f1 + 1) ('f' :: 'a' :: 'l' :: 's' :: 'e' :: rest) =
      some (.bool false, rest)
    have hpre : (("alse".toList).isPrefixOf ('a' :: 'l' :: 's' :: 'e' :: rest)) = true := by
      rw [List.isPrefixOf_iff_prefix]
      exact ⟨rest, rfl⟩
    simp [parseVal, skipWs_cons_neg _ (by decide : isJsonWs 'f' = false), hpre,
      show ¬ ('f' : Char) = lbraceChar from by decide,
      show ¬ ('f' : Char) = quoteChar from by decide]
  | .num n, f, rest, hf, _, hrest => by
    simp only [needVal] at hf
    obtain ⟨f1, rfl⟩ : ∃ f1, f = f1 + 1 := ⟨f - 1, by omega⟩
    have hp := parseNum_intChars n rest hrest
    by_cases hneg : n < 0
    · have hic : intChars n = '-' :: natToChars n.natAbs := by
        unfold intChars
        rw [if_pos hneg]
      obtain ⟨d, t, hdt⟩ := List.exists_cons_of_ne_nil (natToChars_ne_nil n.natAbs)
      have hd := natToChars_digits n.natAbs d (by rw [hdt]; exact List.mem_cons_self _ _)
      have hinf : ¬ (['I', 'n', 'f', 'i', 'n', 'i', 't', 'y'] : List Char) <+:
          natToChars n.natAbs ++ rest := by
        rw [hdt, List.cons_append]
        intro hpre
        obtain ⟨b, hb⟩ := hpre
        have hhd : 'I' = d := by
          have h2 := congrArg List.head? hb
          simpa using h2
        rw [← hhd] at hd
        exact absurd hd (by decide)
      rw [show dumpVal (.num n) = intChars n from rfl, hic, List.cons_append]
      rw [hic, List.cons_append] at hp
      simp [parseVal, skipWs_cons_neg _ (by decide : isJsonWs '-' = false), hp, hinf,
        show ¬ ('-' : Char) = lbraceChar from by decide,
        show ¬ ('-' : Char) = quoteChar from by decide]
    · have hic : intChars n = natToChars n.toNat := by
        unfold intChars
        rw [if_neg hneg]
      obtain ⟨d, t, hdt⟩ := List.exists_cons_of_ne_nil (natToChars_ne_nil n.toNat)
      have hd := natToChars_digits n.toNat d (by rw [hdt]; exact List.mem_cons_self _ _)
      rw [show dumpVal (.num n) = intChars n from rfl, hic, hdt, List.cons_append]
      rw [hic, hdt, List.cons_append] at hp
      simp [parseVal, skipWs_cons_neg _ (digit_not_jsonWs hd), hp, hd,
        ne_of_pred hd (show isDigitCh lbraceChar = false from by decide),
        ne_of_pred hd (show isDigitCh '[' = false from by decide),
        ne_of_pred hd (show isDigitCh quoteChar = false from by decide),
        ne_of_pred hd (show isDigitCh 't' = false from by decide),
        ne_of_pred hd (show isDigitCh 'f' = false from by decide),
        ne_of_pred hd (show isDigitCh 'n' = false from by decide),
        ne_of_pred hd (show isDigitCh 'N' = false from by decide),
        ne_of_pred hd (show isDigitCh 'I' = false from by decide),
        ne_of_pred hd (show isDigitCh '-' = false from by decide)]
  | .flt g, f, rest, hf, hwf, _ => by
    exact absurd hwf (by simp [wfVal])
  | .str s, f, rest, hf, _, _ => by
    simp only [needVal] at hf
    obtain ⟨f1, rfl⟩ : ∃ f1, f = f1 + 1 := ⟨f - 1, by omega⟩
    rw [show dumpVal (.str s) =
        quoteChar :: (dumpStrBody s.toList ++ [quoteChar]) from rfl,
      List.cons_append, List.append_assoc, List.singleton_append]
    rw [parseVal_quote f1 _ s.toList rest (parseStrBody_dump s.toList rest)]
    rfl
  | .arr .nil, f, rest, hf, _, _ => by
    simp only [needVal, needArr] at hf
    obtain ⟨f1, rfl⟩ : ∃ f1, f = f1 + 2 := ⟨f - 2, by omega⟩
    show parseVal (f1 + 1 + 1) ('[' :: ']' :: rest) = some (.arr .nil, rest)
    refine parseVal_lbracket (f1 + 1) _ _ ?_
    simp [parseElemsFirst, skipWs_cons_neg _ (by decide : isJsonWs ']' = false)]
  | .arr (.cons w t), f, rest, hf, hwf, _ => by
    simp only [needVal, needArr] at hf
    obtain ⟨f1, rfl⟩ : ∃ f1, f = f1 + 2 := ⟨f - 2, by omega⟩
    rw [show dumpVal (.arr (.cons w t)) = '[' :: (dumpArr (.cons w t) ++ [']']) from rfl,
      List.cons_append, List.append_assoc, List.singleton_append]
    refine parseVal_lbracket (f1 + 1) _ _ ?_
    obtain ⟨d, dcs, hd, hws, hnb, _⟩ := dumpVal_head w
    have hshape : dumpArr (.cons w t) ++ (']' :: rest) =
        d :: (dcs ++ (dumpArrRest t ++ (']' :: rest))) := by
      rw [show dumpArr (.cons w t) = dumpVal w ++ dumpArrRest t from rfl, hd]
      simp
    rw [hshape]
    refine parseElemsFirst_step f1 d _ (.cons w t) rest hws hnb ?_
    rw [← hshape]
    exact rtArr w t f1 rest (by simp only [needArr]; omega) (by simpa [wfVal] using hwf)
  | .obj .nil, f, rest, hf, _, _ => by
    simp only [needVal, needObj] at hf
    obtain ⟨f1, rfl⟩ : ∃ f1, f = f1 + 2 := ⟨f - 2, by omega⟩
    show parseVal (f1 + 1 + 1) (lbraceChar :: rbraceChar :: rest) = some (.obj .nil, rest)
    refine parseVal_lbrace (f1 + 1) _ _ ?_
    simp [parseMembersFirst, skipWs_cons_neg _ (by decide : isJsonWs rbraceChar = false)]
  | .obj (.cons k w t), f, rest, hf, hwf, _ => by
    simp only [needVal, needObj] at hf
    obtain ⟨f1, rfl⟩ : ∃ f1, f = f1 + 2 := ⟨f - 2, by omega⟩
    rw [show dumpVal (.obj (.cons k w t)) =
        lbraceChar :: (dumpObj (.cons k w t) ++ [rbraceChar]) from rfl,
      List.cons_append, List.append_assoc, List.singleton_append]
    refine parseVal_lbrace (f1 + 1) _ _ ?_
    have hshape : dumpObj (.cons k w t) ++ (rbraceChar :: rest) =
        quoteChar :: ((dumpStrBody k.toList ++ (quoteChar :: ':' :: ' ' :: dumpVal w)) ++
          (dumpObjRest t ++ (rbraceChar :: rest))) := by
      rw [show dumpObj (.cons k w t) =
          (quoteChar :: (dumpStrBody k.toList ++ (quoteChar :: ':' :: ' ' :: dumpVal w))) ++
            dumpObjRest t from rfl]
      simp
    rw [hshape]
    refine parseMembersFirst_step f1 quoteChar _ _ (by decide) (by decide) ?_
    rw [← hshape]
    have hres := rtObj k w t f1 .nil rest (by simp only [needObj]; omega)
      (by simpa [wfVal] using hwf) (allFresh_nil_acc _)
    rw [hres]
    rfl
  termination_by v => sizeOf v

theorem rtArr : ∀ (w : Json) (t : JsonArr) (f : Nat) (rest : List Char),
    needArr (.cons w t) ≤ f → wfArr (.cons w t) = true →
    parseElemsRest f (dumpArr (.cons w t) ++ (']' :: rest)) = some (.cons w t, rest)
  | w, t, f, rest, hf, hwf => by
    simp only [needArr] at hf
    obtain ⟨f1, rfl⟩ : ∃ f1, f = f1 + 1 := ⟨f - 1, by omega⟩
    obtain ⟨hw, ht⟩ := wfArr_cons hwf
    rw [show dumpArr (.cons w t) = dumpVal w ++ dumpArrRest t from rfl,
      List.append_assoc]
    cases t with
    | nil =>
      have hv := rtVal w f1 (']' :: rest) (by omega) hw (numBoundary_rbracket rest)
      show parseElemsRest (f1 + 1) (dumpVal w ++ ([] ++ (']' :: rest))) = _
      rw [List.nil_append]
      simp [parseElemsRest, hv, skipWs_cons_neg _ (by decide : isJsonWs ']' = false)]
    | cons w2 t2 =>
      rw [dumpArrRest_cons w2 t2, List.cons_append, List.cons_append]
      have hv := rtVal w f1 (',' :: ' ' :: (dumpArr (.cons w2 t2) ++ (']' :: rest)))
        (by omega) hw (numBoundary_comma _)
      have ht2 := rtArr w2 t2 f1 rest (by omega) ht
      simp [parseElemsRest, hv, skipWs_cons_neg _ (by decide : isJsonWs ',' = false),
        parseElemsRest_cons_ws f1 ' ' _ (by decide), ht2]
  termination_by w t => sizeOf (JsonArr.cons w t)

theorem rtObj : ∀ (k : String) (w : Json) (t : JsonObj) (f : Nat) (acc : JsonObj)
    (rest : List Char), needObj (.cons k w t) ≤ f → wfObj (.cons k w t) = true →
    allFresh acc (.cons k w t) = true →
    parseMembersRest f (dumpObj (.cons k w t) ++ (rbraceChar :: rest)) acc =
      some (.obj (objAppend acc (.cons k w t)), rest)
  | k, w, t, f, acc, rest, hf, hwf, hfr => by
    simp only [needObj] at hf
    obtain ⟨f1, rfl⟩ : ∃ f1, f = f1 + 1 := ⟨f - 1, by omega⟩
    obtain ⟨hkt, hw, ht⟩ := wfObj_cons hwf
    obtain ⟨hacck, hfrt⟩ := allFresh_cons hfr
    have hshape : dumpObj (.cons k w t) ++ (rbraceChar :: rest) =
        quoteChar :: (dumpStrBody k.toList ++ (quoteChar :: (':' :: (' ' ::
          (dumpVal w ++ (dumpObjRest t ++ (rbraceChar :: rest))))))) := by
      rw [show dumpObj (.cons k w t) =
          (quoteChar :: (dumpStrBody k.toList ++ (quoteChar :: ':' :: ' ' :: dumpVal w))) ++
            dumpObjRest t from rfl]
      simp
    rw [hshape]
    have hmk : String.mk k.data = k := rfl
    cases t with
    | nil =>
      have hsb : parseStrBody (dumpStrBody k.data ++ quoteChar :: (':' :: (' ' ::
          (dumpVal w ++ (dumpObjRest JsonObj.nil ++ (rbraceChar :: rest)))))) =
          some (k.data, ':' :: (' ' ::
            (dumpVal w ++ (dumpObjRest JsonObj.nil ++ (rbraceChar :: rest))))) :=
        parseStrBody_dump k.toList _
      have hv : parseVal f1 (' ' :: (dumpVal w ++ (dumpObjRest JsonObj.nil ++
          (rbraceChar :: rest)))) = some (w, rbraceChar :: rest) := by
        rw [parseVal_cons_ws f1 ' ' _ (by decide)]
        rw [show dumpObjRest JsonObj.nil = [] from rfl, List.nil_append]
        exact rtVal w f1 _ (by omega) hw (numBoundary_rbrace rest)
      have hins := pyDictInsert_fresh acc k w hacck
      simp [parseMembersRest, skipWs_cons_neg _ (by decide : isJsonWs quoteChar = false),
        hsb, skipWs_cons_neg _ (by decide : isJsonWs ':' = false), hv,
        skipWs_cons_neg _ (by decide : isJsonWs rbraceChar = false), hmk, hins,
        show ¬ rbraceChar = ',' from by decide, objAppend]
    | cons k2 w2 t2 =>
      rw [dumpObjRest_cons k2 w2 t2]
      have hsb : parseStrBody (dumpStrBody k.data ++ quoteChar :: (':' :: (' ' ::
          (dumpVal w ++ (',' :: (' ' ::
            (dumpObj (.cons k2 w2 t2) ++ (rbraceChar :: rest)))))))) =
          some (k.data, ':' :: (' ' :: (dumpVal w ++ (',' :: (' ' ::
            (dumpObj (.cons k2 w2 t2) ++ (rbraceChar :: rest))))))) :=
        parseStrBody_dump k.toList _
      have hnb2 : numBoundary (',' :: (' ' ::
          (dumpObj (.cons k2 w2 t2) ++ (rbraceChar :: rest)))) :=
        numBoundary_comma _
      have hv : parseVal f1 (' ' :: (dumpVal w ++ (',' :: (' ' ::
          (dumpObj (.cons k2 w2 t2) ++ (rbraceChar :: rest)))))) =
          some (w, ',' :: (' ' ::
            (dumpObj (.cons k2 w2 t2) ++ (rbraceChar :: rest)))) := by
        rw [parseVal_cons_ws f1 ' ' _ (by decide)]
        exact rtVal w f1 _ (by omega) hw hnb2
      have hins := pyDictInsert_fresh acc k w hacck
      have hfr2 : allFresh (objAppend acc (.cons k w .nil)) (.cons k2 w2 t2) = true :=
        allFresh_snocAcc acc k w (.cons k2 w2 t2) hfrt hkt
      have ht2 := rtObj k2 w2 t2 f1 (objAppend acc (.cons k w .nil)) rest
        (by simp only [needObj] at hf ⊢; omega) ht hfr2
      have hmr : parseMembersRest f1 (' ' :: (dumpObj (.cons k2 w2 t2) ++
          (rbraceChar :: rest))) (objAppend acc (.cons k w .nil)) =
          some (.obj (objAppend acc (.cons k w (.cons k2 w2 t2))), rest) := by
        rw [parseMembersRest_cons_ws f1 ' ' _ _ (by decide), ht2,
          objAppend_assoc acc (.cons k w .nil) (.cons k2 w2 t2)]
        rfl
      simp [parseMembersRest, skipWs_cons_neg _ (by decide : isJsonWs quoteChar = false),
        hsb, skipWs_cons_neg _ (by decide : isJsonWs ':' = false), hv,
        skipWs_cons_neg _ (by decide : isJsonWs ',' = false), hmk, hins, hmr]
  termination_by k w t => sizeOf (JsonObj.cons k w t)
end

/-! ### Fuel bound and `json.loads` round trip -/

mutual
theorem needLeVal : ∀ v : Json, needVal v + 2 ≤ 3 * (dumpVal v).length
  | .null => by decide
  | .bool b => by cases b <;> decide
  | .flt g => by
    have h : 1 ≤ (dumpVal (.flt g)).length := by
      cases g with
      | finite s m e => simp [dumpVal, floatRepr]
      | inf s => cases s <;> simp [dumpVal, floatRepr]
      | nan => simp [dumpVal, floatRepr]
    simp only [needVal]
    omega
  | .num n => by
    have h : 1 ≤ (dumpVal (.num n)).length := by
      rw [show dumpVal (.num n) = intChars n from rfl]
      unfold intChars
      by_cases hneg : n < 0
      · rw [if_pos hneg]; simp
      · rw [if_neg hneg]
        exact List.length_pos.mpr (natToChars_ne_nil _)
    simp only [needVal]
    omega
  | .str s => by
    have h : 1 ≤ (dumpVal (.str s)).length := by
      rw [show dumpVal (.str s) =
        quoteChar :: (dumpStrBody s.toList ++ [quoteChar]) from rfl]
      simp
    simp only [needVal]
    omega
  | .arr l => by
    have hb := needLeArr l
    have hlen : (dumpVal (.arr l)).length = (dumpArr l).length + 2 := by
      rw [show dumpVal (.arr l) = '[' :: (dumpArr l ++ [']']) from rfl]
      simp
    simp only [needVal]
    omega
  | .obj m => by
    have hb := needLeObj m
    have hlen : (dumpVal (.obj m)).length = (dumpObj m).length + 2 := by
      rw [show dumpVal (.obj m) = lbraceChar :: (dumpObj m ++ [rbraceChar]) from rfl]
      simp
    simp only [needVal]
    omega
theorem needLeArr : ∀ l : JsonArr, needArr l ≤ 3 * (dumpArr l).length + 2
  | .nil => by decide
  | .cons v t => by
    have ha := needLeVal v
    have hb := needLeArr t
    have hlen : (dumpArr (.cons v t)).length =
        (dumpVal v).length + (dumpArrRest t).length := by
      rw [show dumpArr (.cons v t) = dumpVal v ++ dumpArrRest t from rfl]
      simp
    have hneed : needArr (.cons v t) = 1 + needVal v + needArr t := by
      simp only [needArr]
    have hcase : ((dumpArrRest t).length = 0 ∧ needArr t = 0) ∨
        (dumpArrRest t).length = (dumpArr t).length + 2 := by
      cases t with
      | nil => exact Or.inl ⟨rfl, rfl⟩
      | cons w u =>
        refine Or.inr ?_
        rw [dumpArrRest_cons w u]
        simp
    rw [hneed]
    rcases hcase with ⟨h1, h2⟩ | h <;> omega
theorem needLeObj : ∀ m : JsonObj, needObj m ≤ 3 * (dumpObj m).length + 2
  | .nil => by decide
  | .cons k v t => by
    have ha := needLeVal v
    have hb := needLeObj t
    have hlen : (dumpObj (.cons k v t)).length =
        (dumpVal v).length + (dumpObjRest t).length + (dumpStrBody k.toList).length + 4 := by
      rw [show dumpObj (.cons k v t) =
        (quoteChar :: (dumpStrBody k.toList ++ (quoteChar :: ':' :: ' ' :: dumpVal v))) ++
          dumpObjRest t from rfl]
      simp
      omega
    have hneed : needObj (.cons k v t) = 1 + needVal v + needObj t := by
      simp only [needObj]
    have hcase : ((dumpObjRest t).length = 0 ∧ needObj t = 0) ∨
        (dumpObjRest t).length = (dumpObj t).length + 2 := by
      cases t with
      | nil => exact Or.inl ⟨rfl, rfl⟩
      | cons k2 w u =>
        refine Or.inr ?_
        rw [dumpObjRest_cons k2 w u]
        simp
    rw [hneed]
    rcases hcase with ⟨h1, h2⟩ | h <;> omega
end

theorem jsonLoads_dump (v : Json) (hwf : wfVal v = true) :
    jsonLoadsChars (dumpVal v) = some v := by
  unfold jsonLoadsChars
  have hneed : needVal v ≤ 3 * (dumpVal v).length + 4 := by
    have := needLeVal v
    omega
  have h := rtVal v (3 * (dumpVal v).length + 4) [] hneed hwf trivial
  rw [List.append_nil] at h
  rw [h]
  simp [skipWs]

/-! ### The extraction pipeline is the identity on clean serialised objects -/


/-- A list with an extension appended is a prefix only where the list
itself already is. -/
theorem isPrefixOf_of_append (p e : List Char) :
    ∀ l, (p ++ e).isPrefixOf l = true → p.isPrefixOf l = true := by
  induction p with
  | nil => intro l _; cases l <;> rfl
  | cons a as ih =>
    intro l h
    cases l with
    | nil =>
      rw [show ((a :: as) ++ e).isPrefixOf [] = false from rfl] at h
      exact absurd h Bool.false_ne_true
    | cons b bs =>
      rw [show ((a :: as) ++ e).isPrefixOf (b :: bs) =
        ((a == b) && (as ++ e).isPrefixOf bs) from rfl] at h
      rw [show (a :: as).isPrefixOf (b :: bs) =
        ((a == b) && as.isPrefixOf bs) from rfl]
      rw [Bool.and_eq_true] at h ⊢
      exact ⟨h.1, ih bs h.2⟩

/-- Text with no plain code fence cannot contain the json-tagged fence. -/
theorem findSub_fenceJson_none :
    ∀ l, findSub l fence3 = none → findSub l fenceJson = none := by
  intro l
  induction l with
  | nil => intro _; decide
  | cons c t ih =>
    intro h
    simp only [findSub] at h
    by_cases hp : fence3.isPrefixOf (c :: t) = true
    · rw [if_pos hp] at h
      exact absurd h (by simp)
    · rw [if_neg hp] at h
      have ht : findSub t fence3 = none := by
        cases hft : findSub t fence3 with
        | none => rfl
        | some i => rw [hft] at h; simp at h
      have hq : ¬ fenceJson.isPrefixOf (c :: t) = true := by
        intro hj
        exact hp (isPrefixOf_of_append fence3 ("json".toList) (c :: t)
          (by rw [show fence3 ++ "json".toList = fenceJson from by decide]; exact hj))
      simp only [findSub]
      rw [if_neg hq, ih ht]
      rfl

/-- The fence-extraction step leaves fence-free text unchanged. -/
theorem fenceStep_id (l : List Char) (h3 : findSub l fence3 = none) :
    fenceStep l = l := by
  have h7 := findSub_fenceJson_none l h3
  simp only [fenceStep, h7, h3]

/-- The brace-slice step leaves text opening with a brace unchanged. -/
theorem braceStep_id (l : List Char) (hh : l.head? = some lbraceChar) :
    braceStep l = l := by
  unfold braceStep
  rw [if_pos hh]

/-- A serialised object starts with the opening brace. -/
theorem dumpObj_head (m : JsonObj) :
    (dumpVal (.obj m)).head? = some lbraceChar := rfl

/-- A serialised object ends with the closing brace. -/
theorem dumpObj_getLast (m : JsonObj) :
    (dumpVal (.obj m)).getLast? = some rbraceChar := by
  rw [show dumpVal (.obj m) = (lbraceChar :: dumpObj m) ++ [rbraceChar] from rfl]
  rw [getLast?_append_ne _ _ (by simp)]
  rfl

/-- Stripping leaves a serialised object unchanged. -/
theorem pyStrip_dumpObj (m : JsonObj) :
    pyStrip (dumpVal (.obj m)) = dumpVal (.obj m) := by
  apply pyStrip_eq_self
  · intro c hc
    rw [dumpObj_head] at hc
    cases hc
    decide
  · intro c hc
    rw [dumpObj_getLast] at hc
    cases hc
    decide

/-- C10 counterexample: the object X = {"a": "``````"} is well formed and
its string values contain no brace characters, yet extract applied to its
serialisation returns the fallback, not X: the serialised string value
contains two code-fence markers, so the fence step slices out the empty
text between them and parsing fails. -/
theorem extract_roundtrip_cex :
    wfVal (.obj (.cons "a" (.str "``````") .nil)) = true ∧
    (∀ c ∈ "``````".toList, ¬ c = lbraceChar ∧ ¬ c = rbraceChar) ∧
    ¬ parseJsonSafely (dumpsJson (.obj (.cons "a" (.str "``````") .nil)))
        (some (.obj .nil)) = .obj (.cons "a" (.str "``````") .nil) := by
  decide

/-- C10 (amended): for every well-formed JSON object X — pairwise distinct
keys in every nested object — whose serialisation contains no ``` code-fence
marker, and for every fallback, extract applied to the serialisation of X
returns X exactly. -/
theorem extract_roundtrip (m : JsonObj) (fb : Option Json)
    (hwf : wfObj m = true)
    (hfence : findSub (dumpVal (.obj m)) fence3 = none) :
    parseJsonSafely (dumpsJson (.obj m)) fb = .obj m := by
  have hD : (dumpsJson (.obj m)).toList = dumpVal (.obj m) := rfl
  have hload : jsonLoadsChars (dumpVal (.obj m)) = some (.obj m) :=
    jsonLoads_dump _ (by simpa [wfVal] using hwf)
  unfold parseJsonSafely extractCandidate
  rw [hD, pyStrip_dumpObj, fenceStep_id _ hfence,
    braceStep_id _ (dumpObj_head m), hload]

/-- The round-trip theorem instantiated at the object {"a": 1} with a
dict fallback. -/
theorem extract_roundtrip_wit :
    wfObj (.cons "a" (.num 1) .nil) = true ∧
    findSub (dumpVal (.obj (.cons "a" (.num 1) .nil))) fence3 = none ∧
    parseJsonSafely (dumpsJson (.obj (.cons "a" (.num 1) .nil))) (some (.obj .nil)) =
      .obj (.cons "a" (.num 1) .nil) :=
  ⟨by decide, by decide,
    extract_roundtrip (.cons "a" (.num 1) .nil) (some (.obj .nil))
      (by decide) (by decide)⟩

/-! ### The recursion-limit counterexample -/

theorem mem_of_head?_eq {α : Type} {l : List α} {a : α} (h : l.head? = some a) :
    a ∈ l := by
  cases l with
  | nil => cases h
  | cons c t =>
    cases Option.some.inj h
    exact List.mem_cons_self _ _

/-- A pattern whose first character does not occur in the text is not
found. -/
theorem findSub_none_of_notMem (p : Char) (pt : List Char) :
    ∀ l : List Char, p ∉ l → findSub l (p :: pt) = none
  | [], _ => rfl
  | c :: t, h => by
    have hpc : ¬ p = c := fun he => h (by rw [he]; exact List.mem_cons_self c t)
    simp only [findSub]
    rw [if_neg (by rw [isPrefixOf_cons_false pt t hpc]; exact Bool.false_ne_true),
      findSub_none_of_notMem p pt t (fun hm => h (List.mem_cons_of_mem c hm))]
    rfl

/-- The brace-slice step leaves text with no opening brace unchanged. -/
theorem braceStep_noBrace (l : List Char) (h : findSub l [lbraceChar] = none) :
    braceStep l = l := by
  unfold braceStep
  by_cases hh : l.head? = some lbraceChar
  · rw [if_pos hh]
  · rw [if_neg hh, h]

/-- Nested opening brackets one past the budget exhaust it. -/
theorem parseValD_nested : ∀ (b : Nat), ∀ (f : Nat) (rest : List Char), 3 * b + 1 ≤ f →
    parseValD f b (List.replicate (b + 1) '[' ++ rest) = .error .recursion := by
  intro b
  induction b with
  | zero =>
    intro f rest hf
    obtain ⟨f1, rfl⟩ : ∃ f1, f = f1 + 1 := ⟨f - 1, by omega⟩
    rw [show List.replicate 1 '[' ++ rest = '[' :: rest from rfl]
    simp [parseValD, skipWs_cons_neg _ (by decide : isJsonWs '[' = false),
      show ¬ ('[' : Char) = lbraceChar from by decide]
  | succ b ih =>
    intro f rest hf
    obtain ⟨f3, rfl⟩ : ∃ f3, f = f3 + 3 := ⟨f - 3, by omega⟩
    have hcons : List.replicate (b + 1) '[' ++ rest =
        '[' :: (List.replicate b '[' ++ rest) := by
      rw [List.replicate_succ, List.cons_append]
    have hIH : parseValD f3 b (List.replicate (b + 1) '[' ++ rest) = .error .recursion :=
      ih f3 rest (by omega)
    have h3 : parseElemsRestD (f3 + 1) b (List.replicate (b + 1) '[' ++ rest) =
        .error .recursion := by
      simp only [parseElemsRestD]
      rw [hIH]
    have h4 : parseElemsFirstD (f3 + 1 + 1) b (List.replicate (b + 1) '[' ++ rest) =
        .error .recursion := by
      rw [hcons] at h3 ⊢
      simp [parseElemsFirstD, skipWs_cons_neg _ (by decide : isJsonWs '[' = false), h3]
    rw [show List.replicate (b + 1 + 1) '[' ++ rest =
      '[' :: (List.replicate (b + 1) '[' ++ rest) from by
      rw [List.replicate_succ, List.cons_append]]
    simp [parseValD, skipWs_cons_neg _ (by decide : isJsonWs '[' = false),
      show ¬ ('[' : Char) = lbraceChar from by decide, h4]

theorem jsonLoadsD_nested (limit : Nat) :
    jsonLoadsD limit (List.replicate (limit + 1) '[') = .error .recursion := by
  unfold jsonLoadsD
  have h := parseValD_nested limit (3 * (List.replicate (limit + 1) '[').length + 4)
    [] (by rw [List.length_replicate]; omega)
  rw [List.append_nil] at h
  rw [h]

/-- Extraction passes a pure run of opening brackets through
unchanged: nothing to strip, no fence, and no opening brace. -/
theorem extractCandidate_nested (n : Nat) :
    extractCandidate (List.replicate (n + 1) '[') = List.replicate (n + 1) '[' := by
  have hmem : ∀ c ∈ List.replicate (n + 1) '[', c = '[' :=
    fun c hc => List.eq_of_mem_replicate hc
  have hstrip : pyStrip (List.replicate (n + 1) '[') = List.replicate (n + 1) '[' := by
    apply pyStrip_eq_self
    · intro c hc
      rw [hmem c (mem_of_head?_eq hc)]
      decide
    · intro c hc
      rw [hmem c (mem_of_getLast?_eq hc)]
      decide
  have hf3 : findSub (List.replicate (n + 1) '[') fence3 = none := by
    rw [show fence3 = Char.ofNat 96 :: "``".toList from by decide]
    exact findSub_none_of_notMem _ _ _ (fun hm => absurd (hmem _ hm) (by decide))
  have hlb : findSub (List.replicate (n + 1) '[') [lbraceChar] = none :=
    findSub_none_of_notMem _ _ _ (fun hm => absurd (hmem _ hm) (by decide))
  unfold extractCandidate
  rw [hstrip, fenceStep_id _ hf3, braceStep_noBrace _ hlb]

/-- C9 counterexample: extract is not total — whatever the value of
the interpreter recursion limit, the input of `limit + 1` nested
opening brackets makes `json.loads` descend past the limit and raise
`RecursionError`, which the `except (json.JSONDecodeError,
ValueError)` clause does not catch, whatever the fallback;
instantiated at CPython's default limit 1000 with a dict fallback. -/
theorem extractJson_total_cex :
    (∀ (limit : Nat) (fb : Option Json),
      parseJsonSafelyD limit (String.mk (List.replicate (limit + 1) '[')) fb =
        .error .recursion) ∧
    parseJsonSafelyD 1000 (String.mk (List.replicate 1001 '['))
      (some (.obj (.cons "fallback" (.bool true) .nil))) = .error .recursion := by
  have hgen : ∀ (limit : Nat) (fb : Option Json),
      parseJsonSafelyD limit (String.mk (List.replicate (limit + 1) '[')) fb =
        .error .recursion := by
    intro limit fb
    unfold parseJsonSafelyD
    rw [show (String.mk (List.replicate (limit + 1) '[')).toList =
      List.replicate (limit + 1) '[' from rfl]
    rw [extractCandidate_nested, jsonLoadsD_nested]
  exact ⟨hgen, hgen 1000 (some (.obj (.cons "fallback" (.bool true) .nil)))⟩
